import Mathlib

/-!
# apng: the PNG chunk-stream parser of `src/apng/apng.go`

A shallow embedding of `Image.parseIHDR`, `Image.parseIDAT` and `Image.Parse`.

* A byte (`uint8`) is a natural number below 256; a byte slice is a `List Nat`.
* The opened file is the list of bytes not yet read; `Read` is `os.File.Read`
  on a regular file: it returns `min k remaining` bytes and reports end of
  file only when it returns no byte for a non-empty buffer.
* `Parse` mutates its receiver and returns an error: the embedding returns the
  error together with the receiver as the call leaves it.
* Everything the code prints, every `Read`, every call of `parseIHDR` and every
  call of the zlib reader is recorded, in order, in the `out` field of the
  result.
* `zlib` is outside the repository: the decompressor is the parameter
  `inflate`.  `hash/crc32` and `encoding/binary` are embedded from their
  definitions.
-/

namespace Apng

/-! ## Data model -/

/-- The `Ihdr` struct. -/
structure Ihdr where
  width : Nat
  height : Nat
  bitDepth : Nat
  colorType : Nat
  compress : Nat
  filter : Nat
  interlace : Nat
  deriving DecidableEq, Repr

/-- The `Image` struct; `Idat` is `[]uint8`. -/
structure Image where
  ihdr : Ihdr
  idat : List Nat
  deriving DecidableEq, Repr

/-- The zero value of `Image`. -/
def Image.zero : Image := ⟨⟨0, 0, 0, 0, 0, 0, 0⟩, []⟩

/-- Errors of the zlib reader (`compress/zlib`, `compress/flate`). -/
inductive ZlibError where
  | header
  | checksum
  | dictionary
  | unexpectedEOF
  | corrupt
  deriving DecidableEq, Repr

/-- The error values `Parse` can return, one constructor per `errors.New` of
the source, plus the errors it passes on. -/
inductive ParseError where
  /-- Line 78: nothing could be read for the png header. -/
  | sigUnreadable
  /-- Line 81: the error of the signature read. -/
  | sigRead
  /-- Line 84: not a png file. -/
  | notPng
  /-- Line 99: chunk header read error. -/
  | chunkHeaderRead
  /-- Line 107: chunk data read error. -/
  | chunkDataRead
  /-- Line 113: chunk CRC read error. -/
  | chunkCrcRead
  /-- Line 131: IDAT read before IHDR was defined. -/
  | idatBeforeIhdr
  /-- Line 31: the IHDR size must be 13. -/
  | ihdrSize
  /-- Line 150: no IHDR. -/
  | missingIhdr
  /-- Line 153: no IDAT. -/
  | missingIdat
  /-- Line 156: no IEND. -/
  | missingIend
  /-- Lines 48 and 55: the error of the zlib reader. -/
  | zlib (e : ZlibError)
  deriving DecidableEq, Repr

/-- What a run does besides computing its result. -/
inductive Event where
  /-- A call `f.Read(buf)` with `len(buf) = want` that returned `got`. -/
  | read (want got : Nat)
  /-- Line 120: the CRC mismatch message. -/
  | crcMismatch (chunkType : List Nat) (crc dataCrc : Nat)
  /-- Line 124: the message for a chunk whose CRC matched. -/
  | chunk (chunkType : List Nat) (length : Nat)
  /-- Line 139: the message for an unimplemented chunk type. -/
  | unimplemented (chunkType : List Nat)
  /-- Line 128: `parseIHDR` is run on `data`. -/
  | ihdr (data : List Nat)
  /-- Lines 46 to 53: the zlib reader is run on `data`. -/
  | inflate (data : List Nat)
  deriving DecidableEq, Repr

/-! ## Library functions -/

/-- The Go expression `b[lo:hi]`. -/
def slice (b : List Nat) (lo hi : Nat) : List Nat := (b.drop lo).take (hi - lo)

/-- The function `binary.BigEndian.Uint32`:
`uint32(b[3]) | uint32(b[2])<<8 | uint32(b[1])<<16 | uint32(b[0])<<24`. -/
def Uint32 (b : List Nat) : Nat :=
  b.getD 3 0 ||| b.getD 2 0 <<< 8 ||| b.getD 1 0 <<< 16 ||| b.getD 0 0 <<< 24

/-- One bit of the reflected CRC-32 with the IEEE polynomial. -/
def crcShift (c : Nat) : Nat :=
  if c % 2 = 1 then (c / 2) ^^^ 0xedb88320 else c / 2

/-- One byte of the CRC-32. -/
def crcUpdate (c b : Nat) : Nat :=
  crcShift (crcShift (crcShift (crcShift (crcShift (crcShift (crcShift (crcShift
    (c ^^^ (b % 256)))))))))

/-- The function `crc32.ChecksumIEEE`. -/
def ChecksumIEEE (data : List Nat) : Nat :=
  (data.foldl crcUpdate 0xffffffff) ^^^ 0xffffffff

/-- What `f.Read(buf)` gives: the buffer, the count, whether the error is
`io.EOF`, and the file after the read. -/
structure ReadResult where
  buf : List Nat
  n : Nat
  eof : Bool
  f : List Nat
  deriving DecidableEq, Repr

/-- The method `(*os.File).Read` on a buffer of `k` zero bytes, `f` being the
bytes of the file that are not read yet. -/
def Read (f : List Nat) (k : Nat) : ReadResult :=
  { buf := f.take k ++ List.replicate (k - f.length) 0
    n := min k f.length
    eof := decide (0 < k) && decide (f.length = 0)
    f := f.drop k }

/-! ## The parser -/

def validSignature : List Nat := [0x89, 0x50, 0x4e, 0x47, 0x0d, 0x0a, 0x1a, 0x0a]

/-- The string "IHDR". -/
def IHDR : List Nat := [0x49, 0x48, 0x44, 0x52]
/-- The string "IDAT". -/
def IDAT : List Nat := [0x49, 0x44, 0x41, 0x54]
/-- The string "IEND". -/
def IEND : List Nat := [0x49, 0x45, 0x4e, 0x44]
/-- The string "tEXt", a chunk type the switch has no case for. -/
def tEXt : List Nat := [0x74, 0x45, 0x58, 0x74]

/-- The method `Image.parseIHDR`: the receiver after the call and the error. -/
def parseIHDR (self : Image) (data : List Nat) : Image × Option ParseError :=
  if data.length ≠ 13 then (self, some .ihdrSize)
  else
    ({ self with
        ihdr :=
          { width := Uint32 (slice data 0 4)
            height := Uint32 (slice data 4 8)
            bitDepth := data.getD 8 0
            colorType := data.getD 9 0
            compress := data.getD 10 0
            filter := data.getD 11 0
            interlace := data.getD 12 0 } }, none)

/-- The method `Image.parseIDAT`: the receiver after the call and the error. -/
def parseIDAT (inflate : List Nat → Except ZlibError (List Nat)) (self : Image)
    (data : List Nat) : Image × Option ParseError :=
  match inflate data with
  | .error e => (self, some (.zlib e))
  | .ok dst =>
    if self.idat.length = 0 then ({ self with idat := dst }, none)
    else ({ self with idat := self.idat ++ dst }, none)

/-- The variables of `Parse` that live across iterations of the chunk loop. -/
structure LoopState where
  f : List Nat
  self : Image
  isReadIhdr : Bool
  isReadIdat : Bool
  isReadIend : Bool
  deriving DecidableEq, Repr

/-- How one pass through the body of the chunk loop ends. -/
inductive Flow where
  /-- The body ran to its end, or hit `continue`. -/
  | next (s : LoopState)
  /-- The `break` of line 96. -/
  | brk (s : LoopState)
  /-- A `return` with an error. -/
  | ret (e : ParseError) (self : Image)
  deriving DecidableEq, Repr

/-- Lines 123 to 146: the switch on the chunk type and the error check after
it.  The `break` of line 137 leaves the switch, and the body then runs on to
the error check with the nil `err` of the CRC read. -/
def dispatch (inflate : List Nat → Except ZlibError (List Nat)) (s : LoopState)
    (chunkType dataBuf : List Nat) (length : Nat) : Flow × List Event :=
  if chunkType = IHDR then
    let r := parseIHDR s.self dataBuf
    match r.2 with
    | some e => (.ret e r.1, [.chunk chunkType length, .ihdr dataBuf])
    | none =>
      (.next { s with self := r.1, isReadIhdr := true },
        [.chunk chunkType length, .ihdr dataBuf])
  else if chunkType = IDAT then
    if !s.isReadIhdr then (.ret .idatBeforeIhdr s.self, [.chunk chunkType length])
    else
      let r := parseIDAT inflate s.self dataBuf
      match r.2 with
      | some e => (.ret e r.1, [.chunk chunkType length, .inflate dataBuf])
      | none =>
        (.next { s with self := r.1, isReadIdat := true },
          [.chunk chunkType length, .inflate dataBuf])
  else if chunkType = IEND then
    (.next { s with isReadIend := true }, [.chunk chunkType length])
  else
    (.next s, [.chunk chunkType length, .unimplemented chunkType])

/-- Lines 91 to 146: one pass through the body of the chunk loop. -/
def iteration (inflate : List Nat → Except ZlibError (List Nat)) (s : LoopState) :
    Flow × List Event :=
  let h := Read s.f 8
  if h.n < 8 then (.brk { s with f := h.f }, [.read 8 h.n])
  else if h.eof then (.ret .chunkHeaderRead s.self, [.read 8 h.n])
  else
    let length := Uint32 (slice h.buf 0 4)
    let chunkType := slice h.buf 4 8
    let d := Read h.f length
    if d.eof then (.ret .chunkDataRead s.self, [.read 8 h.n, .read length d.n])
    else
      let c := Read d.f 4
      if c.eof then
        (.ret .chunkCrcRead s.self, [.read 8 h.n, .read length d.n, .read 4 c.n])
      else
        let crc := Uint32 c.buf
        let crcSrc := chunkType ++ d.buf
        let dataCrc := ChecksumIEEE crcSrc
        if crc ≠ dataCrc then
          (.next { s with f := c.f },
            [.read 8 h.n, .read length d.n, .read 4 c.n, .crcMismatch chunkType crc dataCrc])
        else
          let r := dispatch inflate { s with f := c.f } chunkType d.buf length
          (r.1, [.read 8 h.n, .read length d.n, .read 4 c.n] ++ r.2)

/-- What `Parse` gives: the returned error, the receiver as the call leaves it,
and the events of the run. -/
structure Result where
  err : Option ParseError
  self : Image
  out : List Event
  deriving DecidableEq, Repr

/-- The result `r` of the rest of a run, after the events `out`. -/
def Result.after (out : List Event) (r : Result) : Result :=
  { r with out := out ++ r.out }

/-- Lines 148 to 159: the check that the mandatory chunks were read. -/
def mandatory (s : LoopState) : Result :=
  if !s.isReadIhdr then ⟨some .missingIhdr, s.self, []⟩
  else if !s.isReadIdat then ⟨some .missingIdat, s.self, []⟩
  else if !s.isReadIend then ⟨some .missingIend, s.self, []⟩
  else ⟨none, s.self, []⟩

/-- Lines 90 to 159: the chunk loop followed by the check of the mandatory
chunks, run for at most `fuel` passes; `none` when the passes run out. -/
def chunkLoop (inflate : List Nat → Except ZlibError (List Nat)) :
    Nat → LoopState → Option Result
  | 0, _ => none
  | fuel + 1, s =>
    match iteration inflate s with
    | (.next s', out) => (chunkLoop inflate fuel s').map (Result.after out)
    | (.brk s', out) => some (Result.after out (mandatory s'))
    | (.ret e self, out) => some ⟨some e, self, out⟩

/-- The method `Image.Parse` on a file that `os.Open` opened, `src` being the
bytes of the file and `self` the receiver before the call. -/
def Parse (inflate : List Nat → Except ZlibError (List Nat)) (src : List Nat)
    (self : Image) : Option Result :=
  let sg := Read src 8
  if sg.n = 0 then some ⟨some .sigUnreadable, self, [.read 8 sg.n]⟩
  else if sg.eof then some ⟨some .sigRead, self, [.read 8 sg.n]⟩
  else if sg.buf ≠ validSignature then some ⟨some .notPng, self, [.read 8 sg.n]⟩
  else
    (chunkLoop inflate (sg.f.length + 1) ⟨sg.f, self, false, false, false⟩).map
      (Result.after [.read 8 sg.n])

/-! ## The wire layout, for stating properties of `Parse` -/

/-- The four bytes of the big-endian form of `n`. -/
def be32 (n : Nat) : List Nat :=
  [n / 2 ^ 24 % 256, n / 2 ^ 16 % 256, n / 2 ^ 8 % 256, n % 256]

/-- A framed chunk as it lies in a file: type tag, payload and the stored CRC. -/
structure RawChunk where
  tag : List Nat
  payload : List Nat
  crc : Nat
  deriving DecidableEq, Repr

/-- The CRC-32 of type tag + payload. -/
def RawChunk.dataCrc (c : RawChunk) : Nat := ChecksumIEEE (c.tag ++ c.payload)

/-- A chunk is fully framed: four tag bytes, a length and a CRC of 32 bits. -/
def RawChunk.Framed (c : RawChunk) : Prop :=
  c.tag.length = 4 ∧ c.payload.length < 2 ^ 32 ∧ c.crc < 2 ^ 32

instance (c : RawChunk) : Decidable c.Framed := by
  unfold RawChunk.Framed; infer_instance

/-- The bytes of a chunk: length, type tag, payload, CRC. -/
def RawChunk.bytes (c : RawChunk) : List Nat :=
  be32 c.payload.length ++ c.tag ++ c.payload ++ be32 c.crc

/-- The chunk with the given tag and payload and the correct CRC. -/
def mkChunk (tag payload : List Nat) : RawChunk :=
  ⟨tag, payload, ChecksumIEEE (tag ++ payload)⟩

/-- The bytes of a sequence of chunks. -/
def chunksBytes (cs : List RawChunk) : List Nat := cs.flatMap RawChunk.bytes

/-- The 13 bytes of an IHDR payload holding the fields of `h`. -/
def Ihdr.encode (h : Ihdr) : List Nat :=
  be32 h.width ++ be32 h.height ++
    [h.bitDepth, h.colorType, h.compress, h.filter, h.interlace]

/-- The fields of a header fit their types: `uint32` and `uint8`. -/
def Ihdr.WF (h : Ihdr) : Prop :=
  h.width < 2 ^ 32 ∧ h.height < 2 ^ 32 ∧ h.bitDepth < 256 ∧ h.colorType < 256 ∧
    h.compress < 256 ∧ h.filter < 256 ∧ h.interlace < 256

instance (h : Ihdr) : Decidable h.WF := by
  unfold Ihdr.WF; infer_instance

/-- The Adler-32 checksum of zlib. -/
def adler32 (data : List Nat) : Nat :=
  let r := data.foldl (fun (p : Nat × Nat) b => ((p.1 + b) % 65521, (p.2 + (p.1 + b) % 65521) % 65521))
    (1, 0)
  r.2 * 65536 + r.1

/-- A zlib reader for streams of one stored (uncompressed) deflate block: the
two header bytes, the block header `01`, the length and its complement in
little-endian order, the bytes, and their Adler-32.  Bytes after the stream are
not read, and a stream that starts with another kind of block is reported as
corrupt.  It stands for `inflate` where a concrete decompressor is needed. -/
def inflateStored (data : List Nat) : Except ZlibError (List Nat) :=
  match data with
  | cmf :: flg :: 1 :: l0 :: l1 :: n0 :: n1 :: rest =>
    if cmf % 16 ≠ 8 ∨ (cmf * 256 + flg) % 31 ≠ 0 then .error .header
    else if flg / 32 % 2 = 1 then .error .dictionary
    else if l0 + n0 ≠ 255 ∨ l1 + n1 ≠ 255 then .error .corrupt
    else
      let len := l0 + 256 * l1
      if rest.length < len + 4 then .error .unexpectedEOF
      else if Uint32 (slice rest len (len + 4)) ≠ adler32 (rest.take len) then .error .checksum
      else .ok (rest.take len)
  | cmf :: flg :: _ :: _ =>
    if cmf % 16 ≠ 8 ∨ (cmf * 256 + flg) % 31 ≠ 0 then .error .header
    else .error .corrupt
  | _ => .error .unexpectedEOF

/-- The zlib stream of one stored block holding the bytes `00 00`. -/
def zlib00 : List Nat :=
  [0x78, 0x01, 0x01, 0x02, 0x00, 0xfd, 0xff, 0x00, 0x00, 0x00, 0x02, 0x00, 0x01]

/-- The header with width 1, height 1, bit depth 8 and zeros elsewhere. -/
def ihdr118 : Ihdr := ⟨1, 1, 8, 0, 0, 0, 0⟩

/-- The file of the signature, an IHDR chunk holding `ihdr118`, an IDAT chunk
holding `zlib00` and an empty IEND chunk, each with its correct CRC. -/
def minimalFile : List Nat :=
  validSignature ++ (mkChunk IHDR ihdr118.encode).bytes ++ (mkChunk IDAT zlib00).bytes ++
    (mkChunk IEND []).bytes

/-- The signature, the IHDR and IDAT chunks of `minimalFile`, and an IEND chunk
with the one payload byte `d6`, whose CRC-32 is `be aa 38 00`, cut before the
last byte of that CRC: the file ends after `be aa 38`. -/
def truncatedFile : List Nat :=
  validSignature ++ (mkChunk IHDR ihdr118.encode).bytes ++ (mkChunk IDAT zlib00).bytes ++
    [0, 0, 0, 1, 0x49, 0x45, 0x4e, 0x44, 0xd6, 0xbe, 0xaa, 0x38]

/-! ## Derived functions used in the proofs -/

/-- The loop run with enough passes for the bytes that are left. -/
def run (inflate : List Nat → Except ZlibError (List Nat)) (s : LoopState) : Option Result :=
  chunkLoop inflate (s.f.length + 1) s

/-- The returned error and the receiver, without the events. -/
def Result.outcome (r : Result) : Option ParseError × Image := (r.err, r.self)

/-- The same flow with another file position. -/
def Flow.withF (rest : List Nat) : Flow → Flow
  | .next s => .next { s with f := rest }
  | .brk s => .brk { s with f := rest }
  | .ret e self => .ret e self

/-- What a framed chunk does to the loop variables other than the file. -/
def feed (inflate : List Nat → Except ZlibError (List Nat)) (s : LoopState) (c : RawChunk) :
    Flow × List Event :=
  if c.crc ≠ c.dataCrc then
    (.next s,
      [.read 8 8, .read c.payload.length c.payload.length, .read 4 4,
        .crcMismatch c.tag c.crc c.dataCrc])
  else
    ((dispatch inflate s c.tag c.payload c.payload.length).1,
      [.read 8 8, .read c.payload.length c.payload.length, .read 4 4] ++
        (dispatch inflate s c.tag c.payload c.payload.length).2)

/-- What a sequence of framed chunks does to the loop variables other than the file. -/
def feedAll (inflate : List Nat → Except ZlibError (List Nat)) :
    LoopState → List RawChunk → Flow × List Event
  | s, [] => (.next s, [])
  | s, c :: cs =>
    match feed inflate s c with
    | (.next s1, out) => ((feedAll inflate s1 cs).1, out ++ (feedAll inflate s1 cs).2)
    | r => r


/-- The bytes `inflate` gives for `data`, nothing when it fails. -/
def inflated (inflate : List Nat → Except ZlibError (List Nat)) (data : List Nat) : List Nat :=
  match inflate data with
  | .ok dst => dst
  | .error _ => []

/-- The payloads the zlib reader was run on, in order. -/
def inflateCalls : List Event → List (List Nat)
  | [] => []
  | .inflate d :: out => d :: inflateCalls out
  | _ :: out => inflateCalls out

/-- The payloads of the IDAT chunks of `cs` whose stored CRC is the CRC-32 of
their type tag and payload, in order. -/
def acceptedIdat (cs : List RawChunk) : List (List Nat) :=
  (cs.filter (fun c => decide (c.tag = IDAT ∧ c.crc = c.dataCrc))).map RawChunk.payload

/-- A chunk of type `tag` went through the CRC check: its message of line 124
is among the events. -/
def accepted (tag : List Nat) (out : List Event) : Bool :=
  out.any (fun e =>
    match e with
    | .chunk t _ => decide (t = tag)
    | _ => false)

/-- The error that names the first mandatory chunk not seen, in the order
header, data, end, and no error when all three were seen. -/
def firstMissing (headerSeen dataSeen endSeen : Bool) : Option ParseError :=
  if !headerSeen then some .missingIhdr
  else if !dataSeen then some .missingIdat
  else if !endSeen then some .missingIend
  else none

/-- The errors of lines 148 to 157, returned after the chunk loop has ended. -/
def ParseError.afterLoop : ParseError → Bool
  | .missingIhdr => true
  | .missingIdat => true
  | .missingIend => true
  | _ => false

/-- The payloads of the IHDR chunks of `cs` whose stored CRC is the CRC-32 of
their type tag and payload, in order. -/
def acceptedIhdr (cs : List RawChunk) : List (List Nat) :=
  (cs.filter (fun c => decide (c.tag = IHDR ∧ c.crc = c.dataCrc))).map RawChunk.payload

/-- The header `parseIHDR` stores for the payload `d`. -/
def decodeIhdr (d : List Nat) : Ihdr := (parseIHDR Image.zero d).1.ihdr

/-- The payloads `parseIHDR` was run on, in order. -/
def ihdrCalls : List Event → List (List Nat)
  | [] => []
  | .ihdr d :: out => d :: ihdrCalls out
  | _ :: out => ihdrCalls out

/-- The header in the receiver after the events `out`, `h0` being the header
before them: the decoded payload of the last call of `parseIHDR` on 13 bytes,
and `h0` when there was none. -/
def storedHeader (h0 : Ihdr) (out : List Event) : Ihdr :=
  match ((ihdrCalls out).filter (fun d => decide (d.length = 13))).getLast? with
  | some d => decodeIhdr d
  | none => h0

/-! ## Library lemmas -/

theorem or_shift_eq_add (a b i : Nat) (h : b < 2 ^ i) : b ||| a <<< i = a * 2 ^ i + b := by
  rw [Nat.lor_comm, Nat.shiftLeft_eq, Nat.mul_comm, ← Nat.mul_add_lt_is_or h]

theorem Uint32_bytes (b0 b1 b2 b3 : Nat) (h1 : b1 < 256) (h2 : b2 < 256)
    (h3 : b3 < 256) :
    Uint32 [b0, b1, b2, b3] = b0 * 2 ^ 24 + b1 * 2 ^ 16 + b2 * 2 ^ 8 + b3 := by
  simp only [Uint32, List.getD_cons_zero, List.getD_cons_succ]
  rw [or_shift_eq_add b2 b3 8 (by omega), or_shift_eq_add b1 _ 16 (by omega),
    or_shift_eq_add b0 _ 24 (by omega)]
  omega

theorem Uint32_be32 (n : Nat) (h : n < 2 ^ 32) : Uint32 (be32 n) = n := by
  unfold be32
  rw [Uint32_bytes _ _ _ _ (Nat.mod_lt _ (by norm_num))
    (Nat.mod_lt _ (by norm_num)) (Nat.mod_lt _ (by norm_num))]
  omega

theorem be32_length (n : Nat) : (be32 n).length = 4 := rfl

theorem crcShift_lt (c : Nat) (h : c < 2 ^ 32) : crcShift c < 2 ^ 32 := by
  unfold crcShift
  split
  · exact Nat.xor_lt_two_pow (by omega) (by norm_num)
  · omega

theorem crcUpdate_lt (c b : Nat) (h : c < 2 ^ 32) : crcUpdate c b < 2 ^ 32 := by
  unfold crcUpdate
  have h0 : c ^^^ (b % 256) < 2 ^ 32 :=
    Nat.xor_lt_two_pow h (lt_trans (Nat.mod_lt _ (by norm_num)) (by norm_num))
  exact crcShift_lt _ (crcShift_lt _ (crcShift_lt _ (crcShift_lt _ (crcShift_lt _
    (crcShift_lt _ (crcShift_lt _ (crcShift_lt _ h0)))))))

theorem foldl_crcUpdate_lt (data : List Nat) (c : Nat) (h : c < 2 ^ 32) :
    data.foldl crcUpdate c < 2 ^ 32 := by
  induction data generalizing c with
  | nil => simpa using h
  | cons b bs ih => exact ih _ (crcUpdate_lt c b h)

theorem ChecksumIEEE_lt (data : List Nat) : ChecksumIEEE data < 2 ^ 32 := by
  unfold ChecksumIEEE
  exact Nat.xor_lt_two_pow (foldl_crcUpdate_lt data _ (by norm_num)) (by norm_num)

theorem Read_append (a rest : List Nat) (k : Nat) (h : a.length = k) :
    Read (a ++ rest) k = ⟨a, k, false, rest⟩ := by
  subst h
  simp only [Read, List.take_left, List.drop_left, List.length_append]
  have h1 : a.length - (a.length + rest.length) = 0 := by omega
  have h2 : min a.length (a.length + rest.length) = a.length := by omega
  rw [h1, h2]
  simp only [List.replicate_zero, List.append_nil, ReadResult.mk.injEq, true_and]
  rcases a with _ | ⟨x, a⟩ <;> simp

theorem slice_header (a b : List Nat) (ha : a.length = 4) (hb : b.length = 4) :
    slice (a ++ b) 0 4 = a ∧ slice (a ++ b) 4 8 = b := by
  match a, ha, b, hb with
  | [_, _, _, _], _, [_, _, _, _], _ => exact ⟨rfl, rfl⟩

/-- One pass of the loop body over a fully framed chunk. -/
theorem iteration_chunk (inflate : List Nat → Except ZlibError (List Nat)) (s : LoopState)
    (c : RawChunk) (rest : List Nat) (hc : c.Framed) (hf : s.f = c.bytes ++ rest) :
    iteration inflate s =
      if c.crc ≠ c.dataCrc then
        (.next { s with f := rest },
          [.read 8 8, .read c.payload.length c.payload.length, .read 4 4,
            .crcMismatch c.tag c.crc c.dataCrc])
      else
        ((dispatch inflate { s with f := rest } c.tag c.payload c.payload.length).1,
          [.read 8 8, .read c.payload.length c.payload.length, .read 4 4] ++
            (dispatch inflate { s with f := rest } c.tag c.payload c.payload.length).2) := by
  obtain ⟨ht, hl, hcrc⟩ := hc
  have hf' : s.f = (be32 c.payload.length ++ c.tag) ++ (c.payload ++ (be32 c.crc ++ rest)) := by
    rw [hf, RawChunk.bytes]; simp only [List.append_assoc]
  have hh := Read_append (be32 c.payload.length ++ c.tag) (c.payload ++ (be32 c.crc ++ rest)) 8
    (by simp [be32_length, ht])
  have hs := slice_header (be32 c.payload.length) c.tag (be32_length _) ht
  have hd := Read_append c.payload (be32 c.crc ++ rest) c.payload.length rfl
  have hr := Read_append (be32 c.crc) rest 4 (be32_length _)
  unfold iteration
  simp only [hf', hh, hs.1, hs.2, Uint32_be32 _ hl, hd, hr, Uint32_be32 _ hcrc,
    RawChunk.dataCrc, lt_irrefl, if_false, Bool.false_eq_true]

/-! ## The loop body -/

@[simp] theorem Result.after_err (out : List Event) (r : Result) : (r.after out).err = r.err := rfl
@[simp] theorem Result.after_self (out : List Event) (r : Result) : (r.after out).self = r.self := rfl
@[simp] theorem Result.after_out (out : List Event) (r : Result) :
    (r.after out).out = out ++ r.out := rfl
@[simp] theorem Result.after_outcome (out : List Event) (r : Result) :
    (r.after out).outcome = r.outcome := rfl
theorem Result.after_after (o1 o2 : List Event) (r : Result) :
    (r.after o2).after o1 = r.after (o1 ++ o2) := by
  simp [Result.after]

theorem dispatch_withF (inflate : List Nat → Except ZlibError (List Nat)) (s : LoopState)
    (rest t d : List Nat) (l : Nat) :
    dispatch inflate { s with f := rest } t d l =
      ((dispatch inflate s t d l).1.withF rest, (dispatch inflate s t d l).2) := by
  unfold dispatch
  simp only
  split_ifs <;> first | rfl | (split <;> rfl)

theorem dispatch_next_f (inflate : List Nat → Except ZlibError (List Nat)) (s s1 : LoopState)
    (t d : List Nat) (l : Nat) (out : List Event)
    (h : dispatch inflate s t d l = (.next s1, out)) : s1.f = s.f := by
  unfold dispatch at h
  simp only at h
  split_ifs at h
  · split at h <;> simp only [Prod.mk.injEq, Flow.next.injEq, reduceCtorEq, false_and] at h
    rw [← h.1]
  · simp at h
  · split at h <;> simp only [Prod.mk.injEq, Flow.next.injEq, reduceCtorEq, false_and] at h
    rw [← h.1]
  · simp only [Prod.mk.injEq, Flow.next.injEq] at h
    rw [← h.1]
  · simp only [Prod.mk.injEq, Flow.next.injEq] at h
    rw [← h.1]

theorem iteration_next_length (inflate : List Nat → Except ZlibError (List Nat))
    (s s1 : LoopState) (out : List Event) (h : iteration inflate s = (.next s1, out)) :
    s1.f.length + 8 ≤ s.f.length := by
  unfold iteration at h
  simp only [Read] at h
  split_ifs at h with h1 h2 h3 h4 h5
  · simp at h
  · simp at h
  · simp at h
  · simp at h
  · simp only [Prod.mk.injEq, Flow.next.injEq] at h
    rw [← h.1]
    simp only [List.length_drop]
    omega
  · simp only [Prod.mk.injEq] at h
    have := dispatch_next_f inflate _ s1 _ _ _ _ (Prod.ext h.1 rfl)
    rw [this]
    simp only [List.length_drop]
    omega

/-! ## The chunk loop -/

theorem chunkLoop_fuel (inflate : List Nat → Except ZlibError (List Nat)) :
    ∀ (fuel fuel' : Nat) (s : LoopState), s.f.length < 8 * fuel → s.f.length < 8 * fuel' →
      chunkLoop inflate fuel s = chunkLoop inflate fuel' s := by
  intro fuel
  induction fuel with
  | zero => intro fuel' s h; omega
  | succ n ih =>
    intro fuel' s h h'
    cases fuel' with
    | zero => omega
    | succ m =>
      simp only [chunkLoop]
      rcases hi : iteration inflate s with ⟨fl, out⟩
      cases fl with
      | next s1 =>
        have hl := iteration_next_length inflate s s1 out hi
        simp only
        rw [ih m s1 (by omega) (by omega)]
      | brk s1 => rfl
      | ret e img => rfl

theorem chunkLoop_some (inflate : List Nat → Except ZlibError (List Nat)) :
    ∀ (fuel : Nat) (s : LoopState), s.f.length < 8 * fuel →
      ∃ r, chunkLoop inflate fuel s = some r := by
  intro fuel
  induction fuel with
  | zero => intro s h; omega
  | succ n ih =>
    intro s h
    simp only [chunkLoop]
    rcases hi : iteration inflate s with ⟨fl, out⟩
    cases fl with
    | next s1 =>
      have hl := iteration_next_length inflate s s1 out hi
      obtain ⟨r, hr⟩ := ih s1 (by omega)
      exact ⟨r.after out, by simp [hr]⟩
    | brk s1 => exact ⟨_, rfl⟩
    | ret e img => exact ⟨_, rfl⟩

theorem run_eq (inflate : List Nat → Except ZlibError (List Nat)) (fuel : Nat) (s : LoopState)
    (h : s.f.length < 8 * fuel) : chunkLoop inflate fuel s = run inflate s :=
  chunkLoop_fuel inflate fuel (s.f.length + 1) s h (by omega)

theorem run_some (inflate : List Nat → Except ZlibError (List Nat)) (s : LoopState) :
    ∃ r, run inflate s = some r :=
  chunkLoop_some inflate _ s (by omega)

/-- The loop unfolds by one pass of its body. -/
theorem run_unfold (inflate : List Nat → Except ZlibError (List Nat)) (s : LoopState) :
    run inflate s =
      match iteration inflate s with
      | (.next s1, out) => (run inflate s1).map (Result.after out)
      | (.brk s1, out) => some (Result.after out (mandatory s1))
      | (.ret e self, out) => some ⟨some e, self, out⟩ := by
  rw [run]
  simp only [chunkLoop]
  rcases hi : iteration inflate s with ⟨fl, out⟩
  cases fl with
  | next s1 =>
    have hl := iteration_next_length inflate s s1 out hi
    simp only
    rw [run_eq inflate _ s1 (by omega)]
  | brk s1 => rfl
  | ret e img => rfl

theorem iteration_feed (inflate : List Nat → Except ZlibError (List Nat)) (s : LoopState)
    (c : RawChunk) (rest : List Nat) (hc : c.Framed) (hf : s.f = c.bytes ++ rest) :
    iteration inflate s = ((feed inflate s c).1.withF rest, (feed inflate s c).2) := by
  rw [iteration_chunk inflate s c rest hc hf, feed]
  split_ifs
  · rfl
  · rw [dispatch_withF]

/-- The loop at the start of a framed chunk: the effect of the chunk, then the
loop on the bytes after it. -/
theorem run_chunk (inflate : List Nat → Except ZlibError (List Nat)) (s : LoopState)
    (c : RawChunk) (rest : List Nat) (hc : c.Framed) (hf : s.f = c.bytes ++ rest) :
    run inflate s =
      match feed inflate s c with
      | (.next s1, out) => (run inflate { s1 with f := rest }).map (Result.after out)
      | (.brk s1, out) => some (Result.after out (mandatory s1))
      | (.ret e self, out) => some ⟨some e, self, out⟩ := by
  rw [run_unfold, iteration_feed inflate s c rest hc hf]
  rcases feed inflate s c with ⟨fl, out⟩
  cases fl <;> rfl

theorem chunksBytes_cons (c : RawChunk) (cs : List RawChunk) :
    chunksBytes (c :: cs) = c.bytes ++ chunksBytes cs := by
  simp [chunksBytes]

theorem chunksBytes_append (cs ds : List RawChunk) :
    chunksBytes (cs ++ ds) = chunksBytes cs ++ chunksBytes ds := by
  simp [chunksBytes]

theorem feed_withF (inflate : List Nat → Except ZlibError (List Nat)) (s : LoopState)
    (c : RawChunk) (rest : List Nat) :
    feed inflate { s with f := rest } c =
      ((feed inflate s c).1.withF rest, (feed inflate s c).2) := by
  unfold feed
  split_ifs
  · rfl
  · rw [dispatch_withF]

theorem feedAll_withF (inflate : List Nat → Except ZlibError (List Nat)) :
    ∀ (cs : List RawChunk) (s : LoopState) (rest : List Nat),
      feedAll inflate { s with f := rest } cs =
        ((feedAll inflate s cs).1.withF rest, (feedAll inflate s cs).2) := by
  intro cs
  induction cs with
  | nil => intro s rest; rfl
  | cons c cs ih =>
    intro s rest
    simp only [feedAll]
    rw [feed_withF]
    rcases feed inflate s c with ⟨fl, out⟩
    cases fl with
    | next s1 =>
      show ((feedAll inflate { s1 with f := rest } cs).1,
        out ++ (feedAll inflate { s1 with f := rest } cs).2) = _
      rw [ih s1 rest]
    | brk s1 => rfl
    | ret e img => rfl

/-- The loop at the start of a sequence of framed chunks. -/
theorem run_chunks (inflate : List Nat → Except ZlibError (List Nat)) :
    ∀ (cs : List RawChunk) (s : LoopState) (rest : List Nat), (∀ c ∈ cs, c.Framed) →
      s.f = chunksBytes cs ++ rest →
      run inflate s =
        match feedAll inflate s cs with
        | (.next s1, out) => (run inflate { s1 with f := rest }).map (Result.after out)
        | (.brk s1, out) => some (Result.after out (mandatory s1))
        | (.ret e self, out) => some ⟨some e, self, out⟩ := by
  intro cs
  induction cs with
  | nil =>
    intro s rest _ hf
    simp only [chunksBytes, List.flatMap_nil, List.nil_append] at hf
    simp only [feedAll]
    have : ({ s with f := rest } : LoopState) = s := by rw [← hf]
    rw [this]
    rcases run inflate s with _ | r <;> simp [Result.after]
  | cons c cs ih =>
    intro s rest hcs hf
    rw [chunksBytes_cons, List.append_assoc] at hf
    rw [run_chunk inflate s c _ (hcs c (List.mem_cons_self _ _)) hf]
    simp only [feedAll]
    rcases feed inflate s c with ⟨fl, out⟩
    cases fl with
    | next s1 =>
      simp only
      rw [ih { s1 with f := chunksBytes cs ++ rest } rest
        (fun d hd => hcs d (List.mem_cons_of_mem _ hd)) rfl]
      rw [feedAll_withF]
      rcases feedAll inflate s1 cs with ⟨fl2, out2⟩
      cases fl2 with
      | next s2 =>
        simp only [Flow.withF, Option.map_map]
        congr 1
        funext r
        simp [Result.after]
      | brk s2 =>
        simp only [Flow.withF, Option.map_some']
        simp [Result.after, mandatory]
      | ret e2 img2 => simp [Flow.withF, Result.after]
    | brk s1 => rfl
    | ret e img => rfl

/-! ## `Parse` and `parseIHDR` -/

theorem Parse_valid (inflate : List Nat → Except ZlibError (List Nat)) (body : List Nat)
    (self : Image) :
    Parse inflate (validSignature ++ body) self =
      (run inflate ⟨body, self, false, false, false⟩).map (Result.after [.read 8 8]) := by
  have h := Read_append validSignature body 8 rfl
  unfold Parse
  simp only [h]
  simp [run]

theorem Parse_some (inflate : List Nat → Except ZlibError (List Nat)) (src : List Nat)
    (self : Image) : ∃ r, Parse inflate src self = some r := by
  unfold Parse
  simp only
  split_ifs
  · exact ⟨_, rfl⟩
  · exact ⟨_, rfl⟩
  · exact ⟨_, rfl⟩
  · obtain ⟨r, hr⟩ := run_some inflate ⟨(Read src 8).f, self, false, false, false⟩
    rw [run] at hr
    dsimp only at hr
    exact ⟨r.after [.read 8 (Read src 8).n], by rw [hr]; rfl⟩

theorem parseIHDR_bytes (self : Image) (d0 d1 d2 d3 d4 d5 d6 d7 d8 d9 d10 d11 d12 : Nat)
    (h1 : d1 < 256) (h2 : d2 < 256) (h3 : d3 < 256) (h5 : d5 < 256) (h6 : d6 < 256)
    (h7 : d7 < 256) :
    parseIHDR self [d0, d1, d2, d3, d4, d5, d6, d7, d8, d9, d10, d11, d12] =
      ({ self with
          ihdr :=
            { width := d0 * 2 ^ 24 + d1 * 2 ^ 16 + d2 * 2 ^ 8 + d3
              height := d4 * 2 ^ 24 + d5 * 2 ^ 16 + d6 * 2 ^ 8 + d7
              bitDepth := d8, colorType := d9, compress := d10, filter := d11,
              interlace := d12 } }, none) := by
  have hw : slice [d0, d1, d2, d3, d4, d5, d6, d7, d8, d9, d10, d11, d12] 0 4 = [d0, d1, d2, d3] :=
    rfl
  have hh : slice [d0, d1, d2, d3, d4, d5, d6, d7, d8, d9, d10, d11, d12] 4 8 = [d4, d5, d6, d7] :=
    rfl
  simp only [parseIHDR, hw, hh, Uint32_bytes _ _ _ _ h1 h2 h3, Uint32_bytes _ _ _ _ h5 h6 h7]
  rfl

theorem parseIHDR_encode (self : Image) (h : Ihdr) (hw : h.width < 2 ^ 32)
    (hh : h.height < 2 ^ 32) :
    parseIHDR self h.encode = ({ self with ihdr := h }, none) := by
  have e1 : slice h.encode 0 4 = be32 h.width := rfl
  have e2 : slice h.encode 4 8 = be32 h.height := rfl
  have e3 : h.encode.length = 13 := rfl
  simp only [parseIHDR, e1, e2, e3, Uint32_be32 _ hw, Uint32_be32 _ hh]
  rfl

/-! ## Sequences of framed chunks -/

theorem run_chunks_outcome (inflate : List Nat → Except ZlibError (List Nat))
    (cs : List RawChunk) (s : LoopState) (rest : List Nat) (hcs : ∀ c ∈ cs, c.Framed)
    (hf : s.f = chunksBytes cs ++ rest) :
    (run inflate s).map Result.outcome =
      match (feedAll inflate s cs).1 with
      | .next s1 => (run inflate { s1 with f := rest }).map Result.outcome
      | .brk s1 => some (mandatory s1).outcome
      | .ret e self => some (some e, self) := by
  rw [run_chunks inflate cs s rest hcs hf]
  rcases feedAll inflate s cs with ⟨fl, out⟩
  cases fl with
  | next s1 =>
    simp only [Option.map_map]
    congr 1
  | brk s1 => rfl
  | ret e img => rfl

theorem run_nil (inflate : List Nat → Except ZlibError (List Nat)) (s : LoopState)
    (hf : s.f = []) : run inflate s = some ((mandatory s).after [.read 8 0]) := by
  rw [run_unfold]
  have : iteration inflate s = (.brk s, [.read 8 0]) := by
    unfold iteration
    simp only [hf, Read]
    simp
    rw [← hf]
  rw [this]

theorem feedAll_cons_flow (inflate : List Nat → Except ZlibError (List Nat)) (s : LoopState)
    (c : RawChunk) (cs : List RawChunk) :
    (feedAll inflate s (c :: cs)).1 =
      match (feed inflate s c).1 with
      | .next s1 => (feedAll inflate s1 cs).1
      | r => r := by
  simp only [feedAll]
  rcases feed inflate s c with ⟨fl, out⟩
  cases fl <;> rfl

theorem feed_mkChunk (inflate : List Nat → Except ZlibError (List Nat)) (s : LoopState)
    (t p : List Nat) :
    feed inflate s (mkChunk t p) =
      ((dispatch inflate s t p p.length).1,
        [.read 8 8, .read p.length p.length, .read 4 4] ++ (dispatch inflate s t p p.length).2) := by
  simp [feed, mkChunk, RawChunk.dataCrc]

theorem mkChunk_framed (t p : List Nat) (ht : t.length = 4) (hp : p.length < 2 ^ 32) :
    (mkChunk t p).Framed :=
  ⟨ht, hp, ChecksumIEEE_lt _⟩

theorem parseIDAT_ok (inflate : List Nat → Except ZlibError (List Nat)) (self : Image)
    (p o : List Nat) (h : inflate p = .ok o) :
    parseIDAT inflate self p = ({ self with idat := self.idat ++ o }, none) := by
  unfold parseIDAT
  rw [h]
  simp only
  split_ifs with h0
  · rw [List.length_eq_zero.mp h0, List.nil_append]
  · rfl

theorem inflated_ok (inflate : List Nat → Except ZlibError (List Nat)) (p o : List Nat)
    (h : inflate p = .ok o) : inflated inflate p = o := by
  simp [inflated, h]

/-- CRC-valid IDAT chunks whose payloads inflate, met after an IHDR. -/
theorem feedAll_idats (inflate : List Nat → Except ZlibError (List Nat)) :
    ∀ (idats : List (List Nat)) (s : LoopState) (tail : List RawChunk), s.isReadIhdr = true →
      (∀ p ∈ idats, ∃ o, inflate p = .ok o) →
      (feedAll inflate s (idats.map (mkChunk IDAT) ++ tail)).1 =
        (feedAll inflate
          { s with
            self := { s.self with idat := s.self.idat ++ idats.flatMap (inflated inflate) }
            isReadIdat := s.isReadIdat || !idats.isEmpty } tail).1 := by
  intro idats
  induction idats with
  | nil => intro s tail _ _; simp
  | cons p ps ih =>
    intro s tail hs hp
    obtain ⟨o, ho⟩ := hp p (List.mem_cons_self _ _)
    rw [List.map_cons, List.cons_append, feedAll_cons_flow, feed_mkChunk]
    have hd : (dispatch inflate s IDAT p p.length).1 =
        .next { s with self := { s.self with idat := s.self.idat ++ o }, isReadIdat := true } := by
      simp [dispatch, IDAT, IHDR, hs, parseIDAT_ok inflate s.self p o ho]
    simp only [hd]
    refine (ih _ tail ?_ (fun q hq => hp q (List.mem_cons_of_mem _ hq))).trans ?_
    · exact hs
    · simp [inflated_ok inflate p o ho]

/-! ## Invariants of the chunk loop -/

theorem inflateCalls_append (a b : List Event) :
    inflateCalls (a ++ b) = inflateCalls a ++ inflateCalls b := by
  induction a with
  | nil => rfl
  | cons e a ih => cases e <;> simp [inflateCalls, ih]

/-- A pass that goes on has appended to the image data the inflated form of
each payload it ran the zlib reader on. -/
theorem dispatch_idat (inflate : List Nat → Except ZlibError (List Nat)) (s s1 : LoopState)
    (t d : List Nat) (l : Nat) (out : List Event)
    (h : dispatch inflate s t d l = (.next s1, out)) :
    s1.self.idat = s.self.idat ++ (inflateCalls out).flatMap (inflated inflate) := by
  unfold dispatch at h
  simp only at h
  split_ifs at h with h1 h2 h3 h4
  · unfold parseIHDR at h
    split_ifs at h with h5
    · simp at h
    · simp only [Prod.mk.injEq, Flow.next.injEq] at h
      rw [← h.1, ← h.2]
      simp [inflateCalls]
  · simp at h
  · unfold parseIDAT at h
    rcases hi : inflate d with e | o
    · simp [hi] at h
    · have hio := inflated_ok inflate d o hi
      simp only [hi] at h
      split_ifs at h with h6
      · simp only [Prod.mk.injEq, Flow.next.injEq] at h
        rw [← h.1, ← h.2]
        simp [inflateCalls, hio, List.length_eq_zero.mp h6]
      · simp only [Prod.mk.injEq, Flow.next.injEq] at h
        rw [← h.1, ← h.2]
        simp [inflateCalls, hio]
  · simp only [Prod.mk.injEq, Flow.next.injEq] at h
    rw [← h.1, ← h.2]
    simp [inflateCalls]
  · simp only [Prod.mk.injEq, Flow.next.injEq] at h
    rw [← h.1, ← h.2]
    simp [inflateCalls]

theorem iteration_idat (inflate : List Nat → Except ZlibError (List Nat)) (s s1 : LoopState)
    (out : List Event) (h : iteration inflate s = (.next s1, out)) :
    s1.self.idat = s.self.idat ++ (inflateCalls out).flatMap (inflated inflate) := by
  unfold iteration at h
  simp only at h
  split_ifs at h with h1 h2 h3 h4 h5
  · simp at h
  · simp at h
  · simp at h
  · simp at h
  · simp only [Prod.mk.injEq, Flow.next.injEq] at h
    rw [← h.1, ← h.2]
    simp [inflateCalls]
  · simp only [Prod.mk.injEq] at h
    have := dispatch_idat inflate _ s1 _ _ _ _ (Prod.ext h.1 rfl)
    rw [this, ← h.2, inflateCalls_append]
    simp [inflateCalls]

theorem iteration_brk (inflate : List Nat → Except ZlibError (List Nat)) (s s1 : LoopState)
    (out : List Event) (h : iteration inflate s = (.brk s1, out)) :
    s1 = { s with f := s.f.drop 8 } ∧ out = [.read 8 (min 8 s.f.length)] ∧ s.f.length < 8 := by
  unfold iteration at h
  simp only [Read] at h
  split_ifs at h with h1 h2 h3 h4 h5
  · simp only [Prod.mk.injEq, Flow.brk.injEq] at h
    exact ⟨h.1.symm, h.2.symm, by omega⟩
  · simp at h
  · simp at h
  · simp at h
  · simp at h
  · simp only [Prod.mk.injEq] at h
    exfalso
    have h6 := h.1
    revert h6
    unfold dispatch
    simp only
    split_ifs <;> first | (intro h6; cases h6) | (split <;> intro h6 <;> cases h6)

theorem mandatory_self (s : LoopState) : (mandatory s).self = s.self := by
  unfold mandatory
  split_ifs <;> rfl

theorem mandatory_out (s : LoopState) : (mandatory s).out = [] := by
  unfold mandatory
  split_ifs <;> rfl

theorem chunkLoop_idat (inflate : List Nat → Except ZlibError (List Nat)) :
    ∀ (fuel : Nat) (s : LoopState) (r : Result), chunkLoop inflate fuel s = some r →
      r.err = none →
      r.self.idat = s.self.idat ++ (inflateCalls r.out).flatMap (inflated inflate) := by
  intro fuel
  induction fuel with
  | zero => intro s r h; simp [chunkLoop] at h
  | succ n ih =>
    intro s r h hok
    simp only [chunkLoop] at h
    rcases hi : iteration inflate s with ⟨fl, out⟩
    rw [hi] at h
    cases fl with
    | next s1 =>
      simp only [Option.map_eq_some'] at h
      obtain ⟨r1, hr1, rfl⟩ := h
      have h1 := ih s1 r1 hr1 hok
      have h2 := iteration_idat inflate s s1 out hi
      simp only [Result.after_self, Result.after_out, inflateCalls_append, List.flatMap_append]
      rw [h1, h2, List.append_assoc]
    | brk s1 =>
      simp only [Option.some.injEq] at h
      obtain ⟨hs1, hout, _⟩ := iteration_brk inflate s s1 out hi
      subst h
      simp [mandatory_self, mandatory_out, hs1, hout, inflateCalls]
    | ret e img =>
      simp only [Option.some.injEq] at h
      subst h
      simp at hok

theorem dispatch_calls_ok (inflate : List Nat → Except ZlibError (List Nat)) (s s1 : LoopState)
    (t d : List Nat) (l : Nat) (out : List Event)
    (h : dispatch inflate s t d l = (.next s1, out)) :
    ∀ p ∈ inflateCalls out, ∃ o, inflate p = .ok o := by
  unfold dispatch at h
  simp only at h
  split_ifs at h with h1 h2 h3 h4
  · split at h <;> simp only [Prod.mk.injEq, Flow.next.injEq, reduceCtorEq, false_and] at h
    rw [← h.2]
    simp [inflateCalls]
  · simp at h
  · unfold parseIDAT at h
    rcases hi : inflate d with e | o
    · simp [hi] at h
    · simp only [hi] at h
      have hout : out = [.chunk t l, .inflate d] := by
        split_ifs at h <;> simp only [Prod.mk.injEq] at h <;> exact h.2.symm
      rw [hout]
      simp [inflateCalls, hi]
  · simp only [Prod.mk.injEq, Flow.next.injEq] at h
    rw [← h.2]
    simp [inflateCalls]
  · simp only [Prod.mk.injEq, Flow.next.injEq] at h
    rw [← h.2]
    simp [inflateCalls]

theorem iteration_calls_ok (inflate : List Nat → Except ZlibError (List Nat)) (s s1 : LoopState)
    (out : List Event) (h : iteration inflate s = (.next s1, out)) :
    ∀ p ∈ inflateCalls out, ∃ o, inflate p = .ok o := by
  unfold iteration at h
  simp only at h
  split_ifs at h with h1 h2 h3 h4 h5
  · simp at h
  · simp at h
  · simp at h
  · simp at h
  · simp only [Prod.mk.injEq, Flow.next.injEq] at h
    rw [← h.2]
    simp [inflateCalls]
  · simp only [Prod.mk.injEq] at h
    have := dispatch_calls_ok inflate _ s1 _ _ _ _ (Prod.ext h.1 rfl)
    rw [← h.2, inflateCalls_append]
    simpa [inflateCalls] using this

theorem chunkLoop_calls_ok (inflate : List Nat → Except ZlibError (List Nat)) :
    ∀ (fuel : Nat) (s : LoopState) (r : Result), chunkLoop inflate fuel s = some r →
      r.err = none → ∀ p ∈ inflateCalls r.out, ∃ o, inflate p = .ok o := by
  intro fuel
  induction fuel with
  | zero => intro s r h; simp [chunkLoop] at h
  | succ n ih =>
    intro s r h hok
    simp only [chunkLoop] at h
    rcases hi : iteration inflate s with ⟨fl, out⟩
    rw [hi] at h
    cases fl with
    | next s1 =>
      simp only [Option.map_eq_some'] at h
      obtain ⟨r1, hr1, rfl⟩ := h
      have h1 := ih s1 r1 hr1 hok
      have h2 := iteration_calls_ok inflate s s1 out hi
      intro p hp
      simp only [Result.after_out, inflateCalls_append, List.mem_append] at hp
      rcases hp with hp | hp
      · exact h2 p hp
      · exact h1 p hp
    | brk s1 =>
      simp only [Option.some.injEq] at h
      obtain ⟨hs1, hout, _⟩ := iteration_brk inflate s s1 out hi
      subst h
      simp [mandatory_out, hout, inflateCalls]
    | ret e img =>
      simp only [Option.some.injEq] at h
      subst h
      simp at hok

theorem acceptedIdat_cons (c : RawChunk) (cs : List RawChunk) :
    acceptedIdat (c :: cs) = acceptedIdat [c] ++ acceptedIdat cs := by
  simp only [acceptedIdat, List.filter_cons, List.filter_nil]
  split_ifs <;> simp

theorem dispatch_next_accepted (inflate : List Nat → Except ZlibError (List Nat))
    (s s1 : LoopState) (t d : List Nat) (l : Nat) (out : List Event)
    (h : dispatch inflate s t d l = (.next s1, out)) :
    s1.self.idat = s.self.idat ++ (if t = IDAT then inflated inflate d else []) := by
  unfold dispatch at h
  simp only at h
  split_ifs at h with h1 h2 h3 h4
  · have t2 : ¬ t = IDAT := by rw [h1]; decide
    unfold parseIHDR at h
    split_ifs at h with h5
    · simp at h
    · simp only [Prod.mk.injEq, Flow.next.injEq] at h
      rw [← h.1]
      simp [t2]
  · simp at h
  · unfold parseIDAT at h
    rcases hi : inflate d with e | o
    · simp [hi] at h
    · have hio := inflated_ok inflate d o hi
      simp only [hi] at h
      split_ifs at h with h6
      · simp only [Prod.mk.injEq, Flow.next.injEq] at h
        rw [← h.1]
        simp [h2, hio, List.length_eq_zero.mp h6]
      · simp only [Prod.mk.injEq, Flow.next.injEq] at h
        rw [← h.1]
        simp [h2, hio]
  · simp only [Prod.mk.injEq, Flow.next.injEq] at h
    rw [← h.1]
    simp [h2]
  · simp only [Prod.mk.injEq, Flow.next.injEq] at h
    rw [← h.1]
    simp [h2]

theorem feed_next_idat (inflate : List Nat → Except ZlibError (List Nat)) (s s1 : LoopState)
    (c : RawChunk) (h : (feed inflate s c).1 = .next s1) :
    s1.self.idat = s.self.idat ++ (acceptedIdat [c]).flatMap (inflated inflate) := by
  unfold feed at h
  by_cases hcrc : c.crc = c.dataCrc
  · simp only [hcrc, ne_eq, not_true_eq_false, if_false] at h
    rw [dispatch_next_accepted inflate s s1 c.tag c.payload c.payload.length _ (Prod.ext h rfl)]
    by_cases t2 : c.tag = IDAT <;> simp [acceptedIdat, hcrc, t2]
  · simp only [ne_eq, hcrc, not_false_eq_true, if_true, Flow.next.injEq] at h
    subst h
    simp [acceptedIdat, hcrc]

theorem feed_not_brk (inflate : List Nat → Except ZlibError (List Nat)) (s s1 : LoopState)
    (c : RawChunk) : (feed inflate s c).1 ≠ .brk s1 := by
  unfold feed dispatch
  simp only
  split_ifs <;> first | (intro h; cases h) | (split <;> intro h <;> cases h)

theorem feedAll_next_idat (inflate : List Nat → Except ZlibError (List Nat)) :
    ∀ (cs : List RawChunk) (s s1 : LoopState), (feedAll inflate s cs).1 = .next s1 →
      s1.self.idat = s.self.idat ++ (acceptedIdat cs).flatMap (inflated inflate) := by
  intro cs
  induction cs with
  | nil =>
    intro s s1 h
    simp only [feedAll, Flow.next.injEq] at h
    subst h
    simp [acceptedIdat]
  | cons c cs ih =>
    intro s s1 h
    rw [feedAll_cons_flow] at h
    rcases hf : (feed inflate s c).1 with s0 | s0 | ⟨e, img⟩
    · rw [hf] at h
      simp only at h
      rw [acceptedIdat_cons c cs, ih s0 s1 h, feed_next_idat inflate s s0 c hf,
        List.flatMap_append, List.append_assoc]
    · rw [hf] at h; cases h
    · rw [hf] at h; cases h

theorem feedAll_not_brk (inflate : List Nat → Except ZlibError (List Nat)) :
    ∀ (cs : List RawChunk) (s s1 : LoopState), (feedAll inflate s cs).1 ≠ .brk s1 := by
  intro cs
  induction cs with
  | nil => intro s s1 h; cases h
  | cons c cs ih =>
    intro s s1 h
    rw [feedAll_cons_flow] at h
    rcases hf : (feed inflate s c).1 with s0 | s0 | ⟨e, img⟩
    · rw [hf] at h; exact ih s0 s1 h
    · exact feed_not_brk inflate s s0 c hf
    · rw [hf] at h; cases h

theorem run_short_outcome (inflate : List Nat → Except ZlibError (List Nat)) (s : LoopState)
    (hf : s.f.length < 8) : (run inflate s).map Result.outcome = some (mandatory s).outcome := by
  rw [run_unfold]
  have : iteration inflate s = (.brk { s with f := s.f.drop 8 }, [.read 8 (min 8 s.f.length)]) := by
    unfold iteration
    simp only [Read]
    have : min 8 s.f.length < 8 := by omega
    simp only [this, if_true]
  rw [this]
  simp [mandatory, Result.outcome, Result.after]

/-! ## The claims -/

theorem Parse_chunks_outcome (inflate : List Nat → Except ZlibError (List Nat))
    (cs : List RawChunk) (rest : List Nat) (self : Image) (hcs : ∀ c ∈ cs, c.Framed) :
    (Parse inflate (validSignature ++ (chunksBytes cs ++ rest)) self).map Result.outcome =
      match (feedAll inflate ⟨[], self, false, false, false⟩ cs).1 with
      | .next s1 => (run inflate { s1 with f := rest }).map Result.outcome
      | .brk s1 => some (mandatory s1).outcome
      | .ret e img => some (some e, img) := by
  rw [Parse_valid, Option.map_map]
  have : Result.outcome ∘ Result.after [Event.read 8 8] = Result.outcome := rfl
  rw [this, run_chunks_outcome inflate cs _ rest hcs rfl]
  have h2 := feedAll_withF inflate cs ⟨[], self, false, false, false⟩ (chunksBytes cs ++ rest)
  simp only at h2
  rw [h2]
  rcases (feedAll inflate ⟨[], self, false, false, false⟩ cs).1 with s1 | s1 | ⟨e, img⟩ <;>
    simp [Flow.withF, mandatory]

theorem run_nil_outcome (inflate : List Nat → Except ZlibError (List Nat)) (s : LoopState)
    (hf : s.f = []) : (run inflate s).map Result.outcome = some (mandatory s).outcome := by
  rw [run_nil inflate s hf]; rfl

/-- C1. A file made of the signature, an IHDR chunk holding the fields `h`, one
or more IDAT chunks whose payloads all inflate, and an empty IEND chunk, every
chunk with its correct CRC, is parsed from the zero image without error; the
header of the result is `h` and its image data is the inflated payloads in
order. -/
theorem Parse_minimal_file (inflate : List Nat → Except ZlibError (List Nat)) (h : Ihdr)
    (idats : List (List Nat)) (hh : h.WF) (hne : idats ≠ [])
    (hlen : ∀ p ∈ idats, p.length < 2 ^ 32) (hinf : ∀ p ∈ idats, ∃ o, inflate p = .ok o) :
    (Parse inflate
        (validSignature ++ (mkChunk IHDR h.encode).bytes ++
          chunksBytes (idats.map (mkChunk IDAT)) ++ (mkChunk IEND []).bytes)
        Image.zero).map Result.outcome =
      some (none, ⟨h, idats.flatMap (inflated inflate)⟩) := by
  have hb : validSignature ++ (mkChunk IHDR h.encode).bytes ++
      chunksBytes (idats.map (mkChunk IDAT)) ++ (mkChunk IEND []).bytes =
      validSignature ++ (chunksBytes
        (mkChunk IHDR h.encode :: (idats.map (mkChunk IDAT) ++ [mkChunk IEND []])) ++ []) := by
    simp [chunksBytes]
  have hcs : ∀ c ∈ mkChunk IHDR h.encode :: (idats.map (mkChunk IDAT) ++ [mkChunk IEND []]),
      c.Framed := by
    intro c hc
    simp only [List.mem_cons, List.mem_append, List.mem_map, List.mem_singleton,
      List.not_mem_nil, or_false] at hc
    rcases hc with rfl | ⟨p, hp, rfl⟩ | rfl
    · exact mkChunk_framed _ _ rfl (by show 13 < 2 ^ 32; norm_num)
    · exact mkChunk_framed _ _ rfl (hlen p hp)
    · exact mkChunk_framed _ _ rfl (by decide)
  rw [hb, Parse_chunks_outcome inflate _ _ _ hcs, feedAll_cons_flow, feed_mkChunk]
  have hd : (dispatch inflate ⟨[], Image.zero, false, false, false⟩ IHDR h.encode
      h.encode.length).1 = .next ⟨[], ⟨h, []⟩, true, false, false⟩ := by
    simp [dispatch, parseIHDR_encode _ h hh.1 hh.2.1, Image.zero]
  simp only [hd]
  rw [feedAll_idats inflate idats _ _ rfl hinf, feedAll_cons_flow, feed_mkChunk]
  have hne' : idats.isEmpty = false := by
    cases idats with
    | nil => exact absurd rfl hne
    | cons _ _ => rfl
  simp [dispatch, IEND, IHDR, IDAT, feedAll, run_nil_outcome, mandatory, hne', Result.outcome]

set_option maxRecDepth 100000 in
/-- The concrete scenario of C1, with the stored-block zlib reader. -/
theorem Parse_minimal_file_witness :
    ihdr118.WF ∧ [zlib00] ≠ [] ∧ (∀ p ∈ [zlib00], p.length < 2 ^ 32) ∧
      inflateStored zlib00 = .ok [0, 0] ∧
      (Parse inflateStored
          (validSignature ++ (mkChunk IHDR ihdr118.encode).bytes ++
            chunksBytes ([zlib00].map (mkChunk IDAT)) ++ (mkChunk IEND []).bytes)
          Image.zero).map Result.outcome =
        some (none, ⟨⟨1, 1, 8, 0, 0, 0, 0⟩, [0, 0]⟩) :=
  ⟨by decide, by decide, by decide, rfl,
    Parse_minimal_file inflateStored ihdr118 [zlib00] (by decide) (by decide) (by decide)
      (fun p hp => ⟨[0, 0], by rw [List.mem_singleton.mp hp]; rfl⟩)⟩
set_option maxRecDepth 100000 in
/-- C2. `Parse` on the zero image always returns, and when it returns without
error the image data is the concatenation, in the order of the calls, of what
the zlib reader gave for each payload it was run on, every one of these runs
having succeeded; the zlib reader is run once per IDAT chunk whose CRC matched,
on the payload of that chunk alone.  In terms of the file: when the signature
is followed by fully framed chunks and fewer than eight further bytes, the
image data of a successful parse is the concatenation, in file order, of the
inflated payloads of the IDAT chunks whose CRC matches.  With two IDAT chunks
that each hold the stream `zlib00` the image data is `00 00 00 00`, while the
two payloads concatenated inflate to `00 00`. -/
theorem Parse_idat_per_chunk :
    (∀ (inflate : List Nat → Except ZlibError (List Nat)) (src : List Nat),
      ∃ r, Parse inflate src Image.zero = some r ∧
        (r.err = none →
          r.self.idat = (inflateCalls r.out).flatMap (inflated inflate) ∧
            ∀ p ∈ inflateCalls r.out, ∃ o, inflate p = .ok o)) ∧
      (∀ (inflate : List Nat → Except ZlibError (List Nat)) (cs : List RawChunk)
          (tail : List Nat) (r : Result),
        (∀ c ∈ cs, c.Framed) → tail.length < 8 →
          Parse inflate (validSignature ++ chunksBytes cs ++ tail) Image.zero = some r →
          r.err = none → r.self.idat = (acceptedIdat cs).flatMap (inflated inflate)) ∧
      (Parse inflateStored
          (validSignature ++ (mkChunk IHDR ihdr118.encode).bytes ++ (mkChunk IDAT zlib00).bytes ++
            (mkChunk IDAT zlib00).bytes ++ (mkChunk IEND []).bytes)
          Image.zero).map Result.outcome = some (none, ⟨ihdr118, [0, 0, 0, 0]⟩) ∧
      inflateStored (zlib00 ++ zlib00) = .ok [0, 0] := by
  refine ⟨?_, ?_, by decide, rfl⟩
  · intro inflate src
    obtain ⟨r, hr⟩ := Parse_some inflate src Image.zero
    refine ⟨r, hr, fun hok => ?_⟩
    unfold Parse at hr
    simp only at hr
    split_ifs at hr with h1 h2 h3
    · simp only [Option.some.injEq] at hr; subst hr; simp at hok
    · simp only [Option.some.injEq] at hr; subst hr; simp at hok
    · simp only [Option.some.injEq] at hr; subst hr; simp at hok
    · simp only [Option.map_eq_some'] at hr
      obtain ⟨r1, hr1, rfl⟩ := hr
      have hi := chunkLoop_idat inflate _ _ r1 hr1 hok
      have hc := chunkLoop_calls_ok inflate _ _ r1 hr1 hok
      simp only [Result.after_self, Result.after_out, inflateCalls_append]
      refine ⟨?_, ?_⟩
      · simpa [inflateCalls, Image.zero] using hi
      · simpa [inflateCalls] using hc
  · intro inflate cs tail r hcs htail hr hok
    have hout := Parse_chunks_outcome inflate cs tail Image.zero hcs
    rw [← List.append_assoc, hr] at hout
    rcases hfl : (feedAll inflate ⟨[], Image.zero, false, false, false⟩ cs).1 with
      s1 | s1 | ⟨e, img⟩
    · rw [hfl] at hout
      simp only at hout
      rw [run_short_outcome inflate _ htail] at hout
      simp only [Option.map_some', Option.some.injEq, Result.outcome, Prod.mk.injEq,
        mandatory_self] at hout
      rw [hout.2]
      simpa [Image.zero] using feedAll_next_idat inflate cs _ s1 hfl
    · exact absurd hfl (feedAll_not_brk inflate cs _ s1)
    · rw [hfl] at hout
      simp only [Option.map_some', Option.some.injEq, Result.outcome, Prod.mk.injEq] at hout
      rw [hok] at hout
      exact absurd hout.1 (by simp)

/-- A read of eight bytes from a file of fewer than eight bytes does not give
the signature: the buffer ends in a zero byte. -/
theorem short_buf_ne_signature (src : List Nat) (h : src.length < 8) :
    src.take 8 ++ List.replicate (8 - src.length) 0 ≠ validSignature := by
  match src, h with
  | [], _ => decide
  | [_], _ => simp [validSignature]
  | [_, _], _ => simp [validSignature]
  | [_, _, _], _ => simp [validSignature]
  | [_, _, _, _], _ => simp [validSignature]
  | [_, _, _, _, _], _ => simp [validSignature]
  | [_, _, _, _, _, _], _ => simp [validSignature]
  | [_, _, _, _, _, _, _], _ => simp [validSignature]
  | _ :: _ :: _ :: _ :: _ :: _ :: _ :: _ :: _, h => simp at h; omega

/-- C3. On an input of fewer than 8 bytes, or whose first 8 bytes are not the
signature, `Parse` returns a signature error (nothing readable for the empty
input, not a png file otherwise), leaves the receiver as it was, and its only
read is the one of the signature: no chunk is read. -/
theorem Parse_bad_signature (inflate : List Nat → Except ZlibError (List Nat)) (src : List Nat)
    (self : Image) (h : src.length < 8 ∨ src.take 8 ≠ validSignature) :
    Parse inflate src self =
      some ⟨some (if src = [] then .sigUnreadable else .notPng), self,
        [.read 8 (min 8 src.length)]⟩ := by
  unfold Parse
  simp only [Read]
  by_cases h0 : src = []
  · subst h0; rfl
  · have hl : 0 < src.length := List.length_pos.mpr h0
    have hn : ¬ min 8 src.length = 0 := by omega
    have he : (decide (0 < 8) && decide (src.length = 0)) = false := by
      simp [h0]
    have hb : src.take 8 ++ List.replicate (8 - src.length) 0 ≠ validSignature := by
      by_cases h8 : src.length < 8
      · exact short_buf_ne_signature src h8
      · have : 8 - src.length = 0 := by omega
        rw [this]
        simpa using h.resolve_left h8
    simp only [hn, he, hb, h0, if_false, Bool.false_eq_true, ne_eq, not_false_eq_true, if_true]

/-- Inputs for C3: the empty file, a file cut inside the signature, and a file
whose eighth byte is wrong. -/
theorem Parse_bad_signature_witness :
    (([] : List Nat).length < 8 ∨ ([] : List Nat).take 8 ≠ validSignature) ∧
      Parse inflateStored [] Image.zero = some ⟨some .sigUnreadable, Image.zero, [.read 8 0]⟩ ∧
      Parse inflateStored [0x89, 0x50, 0x4e] Image.zero =
        some ⟨some .notPng, Image.zero, [.read 8 3]⟩ ∧
      Parse inflateStored ([0x89, 0x50, 0x4e, 0x47, 0x0d, 0x0a, 0x1a, 0x0b] ++
          (mkChunk IEND []).bytes) Image.zero =
        some ⟨some .notPng, Image.zero, [.read 8 8]⟩ :=
  ⟨by decide, Parse_bad_signature inflateStored [] Image.zero (by decide),
    Parse_bad_signature inflateStored [0x89, 0x50, 0x4e] Image.zero (by decide),
    Parse_bad_signature inflateStored _ Image.zero (by decide)⟩

/-- Chunks that are skipped or are neither IHDR nor IDAT leave the image and
the IHDR and IDAT flags alone and do not run the zlib reader. -/
theorem feedAll_skipped (inflate : List Nat → Except ZlibError (List Nat)) :
    ∀ (pre : List RawChunk) (s : LoopState),
      (∀ c ∈ pre, c.crc = c.dataCrc → c.tag ≠ IHDR ∧ c.tag ≠ IDAT) →
      ∃ s1 out, feedAll inflate s pre = (.next s1, out) ∧ s1.self = s.self ∧
        s1.isReadIhdr = s.isReadIhdr ∧ s1.isReadIdat = s.isReadIdat ∧ inflateCalls out = [] := by
  intro pre
  induction pre with
  | nil => intro s _; exact ⟨s, [], rfl, rfl, rfl, rfl, rfl⟩
  | cons c cs ih =>
    intro s h
    have hc := h c (List.mem_cons_self _ _)
    have hcs : ∀ d ∈ cs, d.crc = d.dataCrc → d.tag ≠ IHDR ∧ d.tag ≠ IDAT :=
      fun d hd => h d (List.mem_cons_of_mem _ hd)
    have hf : ∃ s0 out0, feed inflate s c = (.next s0, out0) ∧ s0.self = s.self ∧
        s0.isReadIhdr = s.isReadIhdr ∧ s0.isReadIdat = s.isReadIdat ∧ inflateCalls out0 = [] := by
      unfold feed
      by_cases hcrc : c.crc = c.dataCrc
      · obtain ⟨h1, h2⟩ := hc hcrc
        simp only [hcrc, ne_eq, not_true_eq_false, if_false, dispatch, h1, h2]
        split_ifs
        · exact ⟨_, _, rfl, rfl, rfl, rfl, rfl⟩
        · exact ⟨_, _, rfl, rfl, rfl, rfl, rfl⟩
      · simp only [ne_eq, hcrc, not_false_eq_true, if_true]
        exact ⟨_, _, rfl, rfl, rfl, rfl, rfl⟩
    obtain ⟨s0, out0, h0, a0, b0, c0, d0⟩ := hf
    obtain ⟨s1, out1, h1, a1, b1, c1, d1⟩ := ih s0 hcs
    refine ⟨s1, out0 ++ out1, ?_, a1.trans a0, b1.trans b0, c1.trans c0, ?_⟩
    · simp only [feedAll, h0, h1]
    · rw [inflateCalls_append, d0, d1]; rfl

theorem Parse_chunks (inflate : List Nat → Except ZlibError (List Nat))
    (cs : List RawChunk) (rest : List Nat) (self : Image) (hcs : ∀ c ∈ cs, c.Framed) :
    Parse inflate (validSignature ++ (chunksBytes cs ++ rest)) self =
      match feedAll inflate ⟨[], self, false, false, false⟩ cs with
      | (.next s1, out) =>
        (run inflate { s1 with f := rest }).map (Result.after (.read 8 8 :: out))
      | (.brk s1, out) => some (Result.after (.read 8 8 :: out) (mandatory s1))
      | (.ret e img, out) => some ⟨some e, img, .read 8 8 :: out⟩ := by
  rw [Parse_valid, run_chunks inflate cs _ rest hcs rfl]
  have h2 := feedAll_withF inflate cs ⟨[], self, false, false, false⟩ (chunksBytes cs ++ rest)
  simp only at h2
  rw [h2]
  rcases feedAll inflate ⟨[], self, false, false, false⟩ cs with ⟨fl, out⟩
  cases fl with
  | next s1 =>
    simp only [Flow.withF, Option.map_map]
    congr 1
  | brk s1 => simp [Flow.withF, mandatory, Result.after]
  | ret e img => simp [Flow.withF, Result.after]

/-- C4, as amended. When the first chunk that is neither skipped for its CRC
nor of another type than IHDR and IDAT is a fully framed IDAT chunk with a
matching CRC, `Parse` returns the chunk-order error whatever the payload of
that chunk, whatever follows it and whatever the decompressor is, leaves the
receiver as it was, and does not run the zlib reader at all. -/
theorem Parse_idat_before_ihdr (inflate : List Nat → Except ZlibError (List Nat))
    (pre : List RawChunk) (p rest : List Nat) (self : Image)
    (hpre : ∀ c ∈ pre, c.Framed ∧ (c.crc = c.dataCrc → c.tag ≠ IHDR ∧ c.tag ≠ IDAT))
    (hp : p.length < 2 ^ 32) :
    ∃ out,
      Parse inflate (validSignature ++ chunksBytes pre ++ (mkChunk IDAT p).bytes ++ rest) self =
        some ⟨some .idatBeforeIhdr, self, out⟩ ∧ inflateCalls out = [] := by
  obtain ⟨s1, out1, h1, a1, b1, _, d1⟩ :=
    feedAll_skipped inflate pre ⟨[], self, false, false, false⟩ (fun c hc => (hpre c hc).2)
  have hb : validSignature ++ chunksBytes pre ++ (mkChunk IDAT p).bytes ++ rest =
      validSignature ++ (chunksBytes pre ++ ((mkChunk IDAT p).bytes ++ rest)) := by
    simp only [List.append_assoc]
  rw [hb, Parse_chunks inflate pre _ self (fun c hc => (hpre c hc).1), h1]
  simp only
  rw [run_chunk inflate _ (mkChunk IDAT p) rest (mkChunk_framed _ _ rfl hp) rfl, feed_mkChunk]
  simp only at a1 b1
  have hd : dispatch inflate { s1 with f := (mkChunk IDAT p).bytes ++ rest } IDAT p p.length =
      (.ret .idatBeforeIhdr self, [.chunk IDAT p.length]) := by
    simp [dispatch, IDAT, IHDR, b1, a1]
  simp only [hd, Option.map_some', Result.after]
  refine ⟨_, rfl, ?_⟩
  simp [inflateCalls, inflateCalls_append, d1]

set_option maxRecDepth 100000 in
/-- An input for C4: an IHDR chunk with a wrong CRC and an IEND chunk, then an
IDAT chunk whose payload inflates. -/
theorem Parse_idat_before_ihdr_witness :
    (∀ c ∈ [RawChunk.mk IHDR ihdr118.encode 0, mkChunk IEND []],
        c.Framed ∧ (c.crc = c.dataCrc → c.tag ≠ IHDR ∧ c.tag ≠ IDAT)) ∧
      zlib00.length < 2 ^ 32 ∧
      ∃ out,
        Parse inflateStored
            (validSignature ++ chunksBytes [RawChunk.mk IHDR ihdr118.encode 0, mkChunk IEND []] ++
              (mkChunk IDAT zlib00).bytes ++ (mkChunk IEND []).bytes) Image.zero =
          some ⟨some .idatBeforeIhdr, Image.zero, out⟩ ∧ inflateCalls out = [] :=
  ⟨by decide, by decide,
    Parse_idat_before_ihdr inflateStored [RawChunk.mk IHDR ihdr118.encode 0, mkChunk IEND []]
      zlib00 (mkChunk IEND []).bytes Image.zero (by decide) (by decide)⟩

set_option maxRecDepth 100000 in
/-- C4 fails as stated: an IDAT chunk with a wrong CRC that comes before the
IHDR chunk is skipped, and the file is parsed without error. -/
theorem Parse_idat_before_ihdr_counterexample :
    (RawChunk.mk IDAT zlib00 0).Framed ∧
      (Parse inflateStored
          (validSignature ++ (RawChunk.mk IDAT zlib00 0).bytes ++
            (mkChunk IHDR ihdr118.encode).bytes ++ (mkChunk IDAT zlib00).bytes ++
            (mkChunk IEND []).bytes) Image.zero).map Result.outcome =
        some (none, ⟨ihdr118, [0, 0]⟩) := by
  decide

set_option maxRecDepth 100000 in
/-- C5, the code at the failing inputs. `minimalFile` ends with its IEND chunk
and is parsed without error.  With a second IHDR chunk after the IEND chunk the
parse still succeeds but returns the header of that later chunk; with the
first eight bytes of a further chunk after the IEND chunk it returns the chunk
data read error.  The loop does not stop at IEND. -/
theorem Parse_continues_after_iend :
    (Parse inflateStored minimalFile Image.zero).map Result.outcome =
        some (none, ⟨⟨1, 1, 8, 0, 0, 0, 0⟩, [0, 0]⟩) ∧
      (Parse inflateStored (minimalFile ++ (mkChunk IHDR (Ihdr.encode ⟨2, 2, 8, 0, 0, 0, 0⟩)).bytes)
          Image.zero).map Result.outcome =
        some (none, ⟨⟨2, 2, 8, 0, 0, 0, 0⟩, [0, 0]⟩) ∧
      (Parse inflateStored (minimalFile ++ [0, 0, 0, 1, 0x74, 0x45, 0x58, 0x74])
          Image.zero).map Result.outcome =
        some (some .chunkDataRead, ⟨⟨1, 1, 8, 0, 0, 0, 0⟩, [0, 0]⟩) := by
  decide

theorem Parse_other_header (inflate : List Nat → Except ZlibError (List Nat))
    (hd body : List Nat) (self : Image) (h8 : hd.length = 8) (hne : hd ≠ validSignature) :
    (Parse inflate (hd ++ body) self).map Result.outcome = some (some .notPng, self) := by
  have h := Read_append hd body 8 h8
  unfold Parse
  simp only [h]
  simp [hne, Result.outcome]

/-- The loop gives the same error and image with and without a skipped chunk. -/
theorem run_skip_outcome (inflate : List Nat → Except ZlibError (List Nat)) (s : LoopState)
    (bad : RawChunk) (rest : List Nat) (hbad : bad.Framed) (hcrc : bad.crc ≠ bad.dataCrc) :
    (run inflate { s with f := bad.bytes ++ rest }).map Result.outcome =
      (run inflate { s with f := rest }).map Result.outcome := by
  rw [run_chunk inflate _ bad rest hbad rfl]
  simp only [feed, hcrc, ne_eq, not_false_eq_true, if_true, Option.map_map]
  congr 1

/-- C6. A fully framed chunk whose stored CRC is not the CRC-32 of its type
tag and payload, lying where a chunk starts (after eight bytes and any fully
framed chunks), does not change the error `Parse` returns nor the image it
leaves, for any bytes after it and any receiver: both are those of the input
without that chunk. -/
theorem Parse_skip_crc_mismatch (inflate : List Nat → Except ZlibError (List Nat))
    (hd : List Nat) (pre : List RawChunk) (bad : RawChunk) (rest : List Nat) (self : Image)
    (hhd : hd.length = 8) (hpre : ∀ c ∈ pre, c.Framed) (hbad : bad.Framed)
    (hcrc : bad.crc ≠ bad.dataCrc) :
    (Parse inflate (hd ++ chunksBytes pre ++ bad.bytes ++ rest) self).map Result.outcome =
      (Parse inflate (hd ++ chunksBytes pre ++ rest) self).map Result.outcome := by
  have e1 : hd ++ chunksBytes pre ++ bad.bytes ++ rest =
      hd ++ (chunksBytes pre ++ (bad.bytes ++ rest)) := by simp only [List.append_assoc]
  have e2 : hd ++ chunksBytes pre ++ rest = hd ++ (chunksBytes pre ++ rest) := by
    simp only [List.append_assoc]
  rw [e1, e2]
  by_cases hv : hd = validSignature
  · subst hv
    rw [Parse_chunks_outcome inflate pre _ self hpre, Parse_chunks_outcome inflate pre _ self hpre]
    rcases (feedAll inflate ⟨[], self, false, false, false⟩ pre).1 with s1 | s1 | ⟨e, img⟩
    · exact run_skip_outcome inflate s1 bad rest hbad hcrc
    · rfl
    · rfl
  · rw [Parse_other_header inflate hd _ self hhd hv, Parse_other_header inflate hd _ self hhd hv]

set_option maxRecDepth 100000 in
/-- The scenario of C6: the signature, a valid IHDR chunk, one IDAT chunk with a
wrong CRC and a valid IEND chunk give the error for a missing IDAT, as the file
without the IDAT chunk does. -/
theorem Parse_skip_crc_mismatch_witness :
    validSignature.length = 8 ∧ (∀ c ∈ [mkChunk IHDR ihdr118.encode], c.Framed) ∧
      (RawChunk.mk IDAT zlib00 0).Framed ∧
      (RawChunk.mk IDAT zlib00 0).crc ≠ (RawChunk.mk IDAT zlib00 0).dataCrc ∧
      (Parse inflateStored
          (validSignature ++ chunksBytes [mkChunk IHDR ihdr118.encode] ++
            (RawChunk.mk IDAT zlib00 0).bytes ++ (mkChunk IEND []).bytes)
          Image.zero).map Result.outcome =
        (Parse inflateStored
          (validSignature ++ chunksBytes [mkChunk IHDR ihdr118.encode] ++ (mkChunk IEND []).bytes)
          Image.zero).map Result.outcome ∧
      (Parse inflateStored
          (validSignature ++ chunksBytes [mkChunk IHDR ihdr118.encode] ++
            (RawChunk.mk IDAT zlib00 0).bytes ++ (mkChunk IEND []).bytes)
          Image.zero).map Result.outcome =
        some (some .missingIdat, ⟨⟨1, 1, 8, 0, 0, 0, 0⟩, []⟩) :=
  ⟨by decide, by decide, by decide, by decide,
    Parse_skip_crc_mismatch inflateStored validSignature [mkChunk IHDR ihdr118.encode]
      (RawChunk.mk IDAT zlib00 0) (mkChunk IEND []).bytes Image.zero (by decide) (by decide)
      (by decide) (by decide),
    by decide⟩

theorem parseIHDR_ok (self : Image) (d : List Nat) (h : d.length = 13) :
    (parseIHDR self d).2 = none := by
  simp [parseIHDR, h]

/-- CRC-valid chunks of types other than IHDR, IDAT and IEND change nothing. -/
theorem feedAll_other (inflate : List Nat → Except ZlibError (List Nat)) :
    ∀ (pre : List RawChunk) (s : LoopState),
      (∀ c ∈ pre, c.crc = c.dataCrc ∧ c.tag ≠ IHDR ∧ c.tag ≠ IDAT ∧ c.tag ≠ IEND) →
      (feedAll inflate s pre).1 = .next s := by
  intro pre
  induction pre with
  | nil => intro s _; rfl
  | cons c cs ih =>
    intro s h
    obtain ⟨h0, h1, h2, h3⟩ := h c (List.mem_cons_self _ _)
    rw [feedAll_cons_flow]
    have hf : (feed inflate s c).1 = .next s := by
      simp [feed, h0, dispatch, h1, h2, h3]
    rw [hf]
    exact ih s (fun d hd => h d (List.mem_cons_of_mem _ hd))

/-- After an IHDR, CRC-valid chunks among which every IHDR has 13 bytes, every
IDAT inflates and none is an IEND keep the loop going; the IDAT flag is set
when one of them is an IDAT, the IEND flag is not touched. -/
theorem feedAll_noend (inflate : List Nat → Except ZlibError (List Nat)) :
    ∀ (post : List RawChunk) (s : LoopState), s.isReadIhdr = true →
      (∀ c ∈ post, c.crc = c.dataCrc ∧ c.tag ≠ IEND ∧ (c.tag = IHDR → c.payload.length = 13) ∧
        (c.tag = IDAT → ∃ o, inflate c.payload = .ok o)) →
      ∃ s1, (feedAll inflate s post).1 = .next s1 ∧ s1.isReadIhdr = true ∧
        s1.isReadIend = s.isReadIend ∧
        ((s.isReadIdat = true ∨ ∃ c ∈ post, c.tag = IDAT) → s1.isReadIdat = true) := by
  intro post
  induction post with
  | nil =>
    intro s hs _
    exact ⟨s, rfl, hs, rfl, fun h => h.elim id (fun ⟨c, hc, _⟩ => absurd hc (List.not_mem_nil c))⟩
  | cons c cs ih =>
    intro s hs h
    obtain ⟨h0, h1, h2, h3⟩ := h c (List.mem_cons_self _ _)
    have hf : ∃ s0, (feed inflate s c).1 = .next s0 ∧ s0.isReadIhdr = true ∧
        s0.isReadIend = s.isReadIend ∧ ((s.isReadIdat = true ∨ c.tag = IDAT) →
          s0.isReadIdat = true) := by
      simp only [feed, h0, ne_eq, not_true_eq_false, if_false, dispatch]
      by_cases t1 : c.tag = IHDR
      · simp only [t1, if_true, parseIHDR_ok s.self c.payload (h2 t1)]
        exact ⟨_, rfl, rfl, rfl, fun hh => hh.elim id (fun hh => absurd hh (by decide))⟩
      · by_cases t2 : c.tag = IDAT
        · obtain ⟨o, ho⟩ := h3 t2
          simp only [t1, t2, if_false, if_true, hs, Bool.not_true, Bool.false_eq_true,
            parseIDAT_ok inflate s.self c.payload o ho]
          exact ⟨_, rfl, rfl, rfl, fun _ => rfl⟩
        · simp only [t1, t2, h1, if_false]
          exact ⟨_, rfl, hs, rfl, fun hh => hh.elim id False.elim⟩
    obtain ⟨s0, e0, a0, b0, c0⟩ := hf
    obtain ⟨s1, e1, a1, b1, c1⟩ := ih s0 a0 (fun d hd => h d (List.mem_cons_of_mem _ hd))
    refine ⟨s1, ?_, a1, b1.trans b0, ?_⟩
    · rw [feedAll_cons_flow, e0]; exact e1
    · rintro (hh | ⟨d, hd, hdt⟩)
      · exact c1 (Or.inl (c0 (Or.inl hh)))
      · rcases List.mem_cons.mp hd with rfl | hd'
        · exact c1 (Or.inl (c0 (Or.inr hdt)))
        · exact c1 (Or.inr ⟨d, hd', hdt⟩)

theorem feedAll_append_flow (inflate : List Nat → Except ZlibError (List Nat)) :
    ∀ (cs ds : List RawChunk) (s : LoopState),
      (feedAll inflate s (cs ++ ds)).1 =
        match (feedAll inflate s cs).1 with
        | .next s1 => (feedAll inflate s1 ds).1
        | r => r := by
  intro cs
  induction cs with
  | nil => intro ds s; rfl
  | cons c cs ih =>
    intro ds s
    rw [List.cons_append, feedAll_cons_flow, feedAll_cons_flow]
    rcases (feed inflate s c).1 with s1 | s1 | ⟨e, img⟩
    · exact ih ds s1
    · rfl
    · rfl

theorem map_err_eq_of_outcome (x : Option Result) (e : Option ParseError) (img : Image)
    (h : x.map Result.outcome = some (e, img)) : x.map Result.err = some e := by
  rcases x with _ | r
  · simp at h
  · simp only [Option.map_some', Option.some.injEq, Result.outcome, Prod.mk.injEq] at h
    simp [h.1]

/-- C7, as amended. A file made of the signature followed only by fully framed
chunks with matching CRCs, none of them an IEND, in which the first IHDR chunk
comes before every IDAT chunk, every IHDR chunk has 13 bytes of payload, every
IDAT payload inflates, and an IDAT chunk occurs, makes `Parse` return the
error for a missing IEND. -/
theorem Parse_missing_iend (inflate : List Nat → Except ZlibError (List Nat))
    (pre post : List RawChunk) (p0 : List Nat) (self : Image)
    (hpre : ∀ c ∈ pre, c.Framed ∧ c.crc = c.dataCrc ∧ c.tag ≠ IHDR ∧ c.tag ≠ IDAT ∧ c.tag ≠ IEND)
    (hp0 : p0.length = 13)
    (hpost : ∀ c ∈ post, c.Framed ∧ c.crc = c.dataCrc ∧ c.tag ≠ IEND ∧
      (c.tag = IHDR → c.payload.length = 13) ∧ (c.tag = IDAT → ∃ o, inflate c.payload = .ok o))
    (hidat : ∃ c ∈ post, c.tag = IDAT) :
    (Parse inflate (validSignature ++ chunksBytes (pre ++ mkChunk IHDR p0 :: post)) self).map
        Result.err = some (some .missingIend) := by
  have hcs : ∀ c ∈ pre ++ mkChunk IHDR p0 :: post, c.Framed := by
    intro c hc
    rcases List.mem_append.mp hc with h | h
    · exact (hpre c h).1
    · rcases List.mem_cons.mp h with rfl | h
      · exact mkChunk_framed _ _ rfl (by rw [hp0]; norm_num)
      · exact (hpost c h).1
  have hb : validSignature ++ chunksBytes (pre ++ mkChunk IHDR p0 :: post) =
      validSignature ++ (chunksBytes (pre ++ mkChunk IHDR p0 :: post) ++ []) := by simp
  have h1 := feedAll_other inflate pre ⟨[], self, false, false, false⟩
    (fun c hc => (hpre c hc).2)
  have hd : (dispatch inflate ⟨[], self, false, false, false⟩ IHDR p0 p0.length).1 =
      .next ⟨[], (parseIHDR self p0).1, true, false, false⟩ := by
    simp [dispatch, parseIHDR_ok self p0 hp0]
  obtain ⟨s1, e1, a1, b1, c1⟩ := feedAll_noend inflate post
    ⟨[], (parseIHDR self p0).1, true, false, false⟩ rfl (fun c hc => (hpost c hc).2)
  have hflow : (feedAll inflate ⟨[], self, false, false, false⟩
      (pre ++ mkChunk IHDR p0 :: post)).1 = .next s1 := by
    rw [feedAll_append_flow, h1]
    simp only
    rw [feedAll_cons_flow, feed_mkChunk]
    simp only [hd]
    exact e1
  have hout := Parse_chunks_outcome inflate _ [] self hcs
  rw [hflow] at hout
  simp only at hout
  rw [run_nil_outcome inflate _ rfl] at hout
  rw [hb]
  refine map_err_eq_of_outcome _ _ s1.self (hout.trans ?_)
  have c1' := c1 (Or.inr hidat)
  simp only at b1
  simp [mandatory, a1, b1, c1', Result.outcome]

set_option maxRecDepth 100000 in
/-- An input for C7: the signature, a tEXt chunk, an IHDR chunk and an IDAT
chunk that inflates, and nothing after them. -/
theorem Parse_missing_iend_witness :
    (∀ c ∈ [mkChunk tEXt [0x41]],
        c.Framed ∧ c.crc = c.dataCrc ∧ c.tag ≠ IHDR ∧ c.tag ≠ IDAT ∧ c.tag ≠ IEND) ∧
      ihdr118.encode.length = 13 ∧ (∃ c ∈ [mkChunk IDAT zlib00], c.tag = IDAT) ∧
      (Parse inflateStored
          (validSignature ++ chunksBytes ([mkChunk tEXt [0x41]] ++ mkChunk IHDR ihdr118.encode ::
            [mkChunk IDAT zlib00])) Image.zero).map Result.err = some (some .missingIend) :=
  ⟨by decide, by decide, ⟨_, List.mem_singleton.mpr rfl, rfl⟩,
    Parse_missing_iend inflateStored [mkChunk tEXt [0x41]] [mkChunk IDAT zlib00] ihdr118.encode
      Image.zero (by decide) (by decide)
      (by
        intro c hc
        rw [List.mem_singleton.mp hc]
        exact ⟨by decide, rfl, by decide, fun h => absurd h (by decide),
          fun _ => ⟨[0, 0], rfl⟩⟩)
      ⟨_, List.mem_singleton.mpr rfl, rfl⟩⟩

set_option maxRecDepth 100000 in
/-- C7 fails as stated: the signature, a 13-byte IHDR chunk, an IDAT chunk
that inflates and a second IDAT chunk whose payload does not inflate, all with
correct CRCs and with no IEND, give the error of the zlib reader. -/
theorem Parse_missing_iend_counterexample :
    inflateStored zlib00 = .ok [0, 0] ∧
      (Parse inflateStored
          (validSignature ++ (mkChunk IHDR ihdr118.encode).bytes ++ (mkChunk IDAT zlib00).bytes ++
            (mkChunk IDAT [0]).bytes) Image.zero).map Result.err =
        some (some (.zlib .unexpectedEOF)) :=
  ⟨rfl, by decide⟩

/-- C8. `parseIHDR` returns the size error exactly when the payload is not 13
bytes long; and when the first chunk of a file whose CRC matches is an IHDR
chunk with a payload of another length than 13, the chunks before it being
fully framed with CRCs that do not match, `Parse` returns that size error and
leaves the receiver as it was. -/
theorem Parse_ihdr_size (inflate : List Nat → Except ZlibError (List Nat)) (self : Image)
    (d : List Nat) (pre : List RawChunk) (p rest : List Nat)
    (hpre : ∀ c ∈ pre, c.Framed ∧ c.crc ≠ c.dataCrc) (hp : p.length ≠ 13)
    (hlen : p.length < 2 ^ 32) :
    ((parseIHDR self d).2 = some .ihdrSize ↔ d.length ≠ 13) ∧
      (Parse inflate (validSignature ++ chunksBytes pre ++ (mkChunk IHDR p).bytes ++ rest)
          self).map Result.outcome = some (some .ihdrSize, self) := by
  constructor
  · unfold parseIHDR
    split_ifs with h
    · simp [h]
    · simp only [reduceCtorEq, false_iff]
      exact h
  · obtain ⟨s1, out1, h1, a1, _, _, _⟩ :=
      feedAll_skipped inflate pre ⟨[], self, false, false, false⟩
        (fun c hc h => absurd h (hpre c hc).2)
    have hb : validSignature ++ chunksBytes pre ++ (mkChunk IHDR p).bytes ++ rest =
        validSignature ++ (chunksBytes (pre ++ [mkChunk IHDR p]) ++ rest) := by
      simp [chunksBytes]
    have hcs : ∀ c ∈ pre ++ [mkChunk IHDR p], c.Framed := by
      intro c hc
      rcases List.mem_append.mp hc with h | h
      · exact (hpre c h).1
      · rw [List.mem_singleton.mp h]
        exact mkChunk_framed _ _ rfl hlen
    rw [hb, Parse_chunks_outcome inflate _ rest self hcs, feedAll_append_flow, h1]
    simp only
    rw [feedAll_cons_flow, feed_mkChunk]
    simp only at a1
    simp [dispatch, parseIHDR, hp, a1]

set_option maxRecDepth 100000 in
/-- An input for C8: an IDAT chunk with a wrong CRC, then an IHDR chunk with a
payload of three bytes and the correct CRC, then an IEND chunk. -/
theorem Parse_ihdr_size_witness :
    (∀ c ∈ [RawChunk.mk IDAT zlib00 0], c.Framed ∧ c.crc ≠ c.dataCrc) ∧
      [1, 2, 3].length ≠ 13 ∧ [1, 2, 3].length < 2 ^ 32 ∧
      ((parseIHDR Image.zero [1, 2, 3]).2 = some .ihdrSize ↔ [1, 2, 3].length ≠ 13) ∧
      (Parse inflateStored
          (validSignature ++ chunksBytes [RawChunk.mk IDAT zlib00 0] ++
            (mkChunk IHDR [1, 2, 3]).bytes ++ (mkChunk IEND []).bytes)
          Image.zero).map Result.outcome = some (some .ihdrSize, Image.zero) :=
  ⟨by decide, by decide, by decide,
    Parse_ihdr_size inflateStored Image.zero [1, 2, 3] [RawChunk.mk IDAT zlib00 0] [1, 2, 3]
      (mkChunk IEND []).bytes (by decide) (by decide) (by decide)⟩

/-- C9. On a payload of 13 bytes `parseIHDR` returns no error and sets the
fields to the big-endian value of bytes 0 to 3, that of bytes 4 to 7, and
bytes 8, 9, 10, 11 and 12, whatever these values are; and on the encoding of any
header whose fields fit their types it gives back that header. -/
theorem parseIHDR_decode (self : Image) (d : List Nat) (h : Ihdr) (hd : d.length = 13)
    (hb : ∀ b ∈ d, b < 256) (hh : h.WF) :
    parseIHDR self d =
        ({ self with
            ihdr :=
              { width := d.getD 0 0 * 2 ^ 24 + d.getD 1 0 * 2 ^ 16 + d.getD 2 0 * 2 ^ 8 + d.getD 3 0
                height :=
                  d.getD 4 0 * 2 ^ 24 + d.getD 5 0 * 2 ^ 16 + d.getD 6 0 * 2 ^ 8 + d.getD 7 0
                bitDepth := d.getD 8 0
                colorType := d.getD 9 0
                compress := d.getD 10 0
                filter := d.getD 11 0
                interlace := d.getD 12 0 } }, none) ∧
      h.encode.length = 13 ∧ (∀ b ∈ h.encode, b < 256) ∧
      parseIHDR self h.encode = ({ self with ihdr := h }, none) := by
  refine ⟨?_, rfl, ?_, parseIHDR_encode self h hh.1 hh.2.1⟩
  · match d, hd, hb with
    | [d0, d1, d2, d3, d4, d5, d6, d7, d8, d9, d10, d11, d12], _, hb =>
      have hb' : ∀ b, b ∈ [d0, d1, d2, d3, d4, d5, d6, d7, d8, d9, d10, d11, d12] → b < 256 := hb
      rw [parseIHDR_bytes self d0 d1 d2 d3 d4 d5 d6 d7 d8 d9 d10 d11 d12 (hb' d1 (by simp))
        (hb' d2 (by simp)) (hb' d3 (by simp)) (hb' d5 (by simp)) (hb' d6 (by simp))
        (hb' d7 (by simp))]
      rfl
  · obtain ⟨_, _, h3, h4, h5, h6, h7⟩ := hh
    intro b hb
    simp only [Ihdr.encode, be32, List.mem_append, List.mem_cons, List.not_mem_nil, or_false] at hb
    omega

/-- Inputs for C9: thirteen bytes `ff`, which no check rejects, and the
header of a 1 by 1 image. -/
theorem parseIHDR_decode_witness :
    (List.replicate 13 255).length = 13 ∧ (∀ b ∈ List.replicate 13 255, b < 256) ∧ ihdr118.WF ∧
      parseIHDR Image.zero (List.replicate 13 255) =
        (⟨⟨4294967295, 4294967295, 255, 255, 255, 255, 255⟩, []⟩, none) ∧
      parseIHDR Image.zero [0, 0, 0, 1, 0, 0, 0, 1, 8, 0, 0, 0, 0] =
        (⟨⟨1, 1, 8, 0, 0, 0, 0⟩, []⟩, none) :=
  ⟨by decide, by decide, by decide,
    (parseIHDR_decode Image.zero (List.replicate 13 255) ihdr118 (by decide) (by decide)
      (by decide)).1,
    (parseIHDR_decode Image.zero (List.replicate 13 255) ihdr118 (by decide) (by decide)
      (by decide)).2.2.2⟩

set_option maxRecDepth 100000 in
/-- C10, the code at the failing input. `truncatedFile` has no complete IEND
chunk: its last chunk is cut inside the CRC.  The read of the CRC returns 3 of
the 4 bytes with no error, the buffer keeps a zero as its last byte, which
happens to be the missing byte, and `Parse` returns without error. -/
theorem Parse_truncated_crc_accepted :
    (mkChunk IEND [0xd6]).bytes = [0, 0, 0, 1, 0x49, 0x45, 0x4e, 0x44, 0xd6, 0xbe, 0xaa, 0x38, 0] ∧
      Parse inflateStored truncatedFile Image.zero =
        some ⟨none, ⟨⟨1, 1, 8, 0, 0, 0, 0⟩, [0, 0]⟩,
          [.read 8 8,
            .read 8 8, .read 13 13, .read 4 4, .chunk IHDR 13,
            .ihdr [0, 0, 0, 1, 0, 0, 0, 1, 8, 0, 0, 0, 0],
            .read 8 8, .read 13 13, .read 4 4, .chunk IDAT 13, .inflate zlib00,
            .read 8 8, .read 1 1, .read 4 3, .chunk IEND 1,
            .read 8 0]⟩ := by
  decide

theorem accepted_append (tag : List Nat) (a b : List Event) :
    accepted tag (a ++ b) = (accepted tag a || accepted tag b) := by
  simp [accepted, List.any_append]

theorem dispatch_flags (inflate : List Nat → Except ZlibError (List Nat)) (s s1 : LoopState)
    (t d : List Nat) (l : Nat) (out : List Event)
    (h : dispatch inflate s t d l = (.next s1, out)) :
    s1.isReadIhdr = (s.isReadIhdr || accepted IHDR out) ∧
      s1.isReadIdat = (s.isReadIdat || accepted IDAT out) ∧
      s1.isReadIend = (s.isReadIend || accepted IEND out) := by
  unfold dispatch at h
  simp only at h
  split_ifs at h with h1 h2 h3 h4
  · split at h <;> simp only [Prod.mk.injEq, Flow.next.injEq, reduceCtorEq, false_and] at h
    rw [← h.1, ← h.2, h1]
    simp [accepted, IHDR, IDAT, IEND]
  · simp at h
  · split at h <;> simp only [Prod.mk.injEq, Flow.next.injEq, reduceCtorEq, false_and] at h
    rw [← h.1, ← h.2, h2]
    simp [accepted, IHDR, IDAT, IEND]
  · simp only [Prod.mk.injEq, Flow.next.injEq] at h
    rw [← h.1, ← h.2, h4]
    simp [accepted, IHDR, IDAT, IEND]
  · simp only [Prod.mk.injEq, Flow.next.injEq] at h
    rw [← h.1, ← h.2]
    simp [accepted, h1, h2, h4]

theorem iteration_flags (inflate : List Nat → Except ZlibError (List Nat)) (s s1 : LoopState)
    (out : List Event) (h : iteration inflate s = (.next s1, out)) :
    s1.isReadIhdr = (s.isReadIhdr || accepted IHDR out) ∧
      s1.isReadIdat = (s.isReadIdat || accepted IDAT out) ∧
      s1.isReadIend = (s.isReadIend || accepted IEND out) := by
  unfold iteration at h
  simp only at h
  split_ifs at h with h1 h2 h3 h4 h5
  · simp at h
  · simp at h
  · simp at h
  · simp at h
  · simp only [Prod.mk.injEq, Flow.next.injEq] at h
    rw [← h.1, ← h.2]
    simp [accepted]
  · simp only [Prod.mk.injEq] at h
    have := dispatch_flags inflate _ s1 _ _ _ _ (Prod.ext h.1 rfl)
    rw [← h.2, accepted_append, accepted_append, accepted_append]
    simpa [accepted] using this

theorem parseIHDR_err (self : Image) (d : List Nat) (e : ParseError)
    (h : (parseIHDR self d).2 = some e) : e = .ihdrSize := by
  unfold parseIHDR at h
  split_ifs at h
  simp only [Option.some.injEq] at h
  exact h.symm

theorem parseIDAT_err (inflate : List Nat → Except ZlibError (List Nat)) (self : Image)
    (d : List Nat) (e : ParseError) (h : (parseIDAT inflate self d).2 = some e) :
    ∃ z, inflate d = .error z ∧ e = .zlib z ∧ (parseIDAT inflate self d).1 = self := by
  unfold parseIDAT at h ⊢
  rcases hi : inflate d with z | o
  · simp only [hi, Option.some.injEq] at h
    exact ⟨z, rfl, h.symm, rfl⟩
  · simp only [hi] at h
    split_ifs at h

theorem dispatch_ret (inflate : List Nat → Except ZlibError (List Nat)) (s : LoopState)
    (t d : List Nat) (l : Nat) (e : ParseError) (img : Image)
    (h : (dispatch inflate s t d l).1 = .ret e img) :
    e = .idatBeforeIhdr ∨ e = .ihdrSize ∨ ∃ z, e = .zlib z := by
  unfold dispatch at h
  simp only at h
  split_ifs at h with h1 h2 h3 h4
  · split at h
    · next e1 he1 =>
      simp only [Flow.ret.injEq] at h
      rw [← h.1]
      exact Or.inr (Or.inl (parseIHDR_err _ _ _ he1))
    · simp at h
  · simp only [Flow.ret.injEq] at h
    exact Or.inl h.1.symm
  · split at h
    · next e1 he1 =>
      simp only [Flow.ret.injEq] at h
      rw [← h.1]
      obtain ⟨z, _, hz, _⟩ := parseIDAT_err inflate _ _ _ he1
      exact Or.inr (Or.inr ⟨z, hz⟩)
    · simp at h

/-- The errors a pass of the loop body can return. -/
theorem iteration_ret (inflate : List Nat → Except ZlibError (List Nat)) (s : LoopState)
    (e : ParseError) (img : Image) (out : List Event)
    (h : iteration inflate s = (.ret e img, out)) :
    e = .chunkDataRead ∨ e = .chunkCrcRead ∨ e = .idatBeforeIhdr ∨ e = .ihdrSize ∨
      ∃ z, e = .zlib z := by
  unfold iteration at h
  simp only [Read] at h
  split_ifs at h with h1 h2 h3 h4 h5
  · simp at h
  · exfalso
    have : ¬ s.f.length = 0 := by omega
    simp [this] at h2
  · simp only [Prod.mk.injEq, Flow.ret.injEq] at h
    exact Or.inl h.1.1.symm
  · simp only [Prod.mk.injEq, Flow.ret.injEq] at h
    exact Or.inr (Or.inl h.1.1.symm)
  · simp at h
  · simp only [Prod.mk.injEq] at h
    exact Or.inr (Or.inr (dispatch_ret inflate _ _ _ _ e img h.1))

theorem mandatory_err (s : LoopState) :
    (mandatory s).err = firstMissing s.isReadIhdr s.isReadIdat s.isReadIend := by
  unfold mandatory firstMissing
  split_ifs <;> rfl

theorem chunkLoop_flags (inflate : List Nat → Except ZlibError (List Nat)) :
    ∀ (fuel : Nat) (s : LoopState) (r : Result), chunkLoop inflate fuel s = some r →
      (r.err = none ∨ ∃ e, r.err = some e ∧ e.afterLoop = true) →
      r.err = firstMissing (s.isReadIhdr || accepted IHDR r.out)
        (s.isReadIdat || accepted IDAT r.out) (s.isReadIend || accepted IEND r.out) := by
  intro fuel
  induction fuel with
  | zero => intro s r h; simp [chunkLoop] at h
  | succ n ih =>
    intro s r h hok
    simp only [chunkLoop] at h
    rcases hi : iteration inflate s with ⟨fl, out⟩
    rw [hi] at h
    cases fl with
    | next s1 =>
      simp only [Option.map_eq_some'] at h
      obtain ⟨r1, hr1, rfl⟩ := h
      have h1 := ih s1 r1 hr1 hok
      obtain ⟨a, b, c⟩ := iteration_flags inflate s s1 out hi
      simp only [Result.after_err, Result.after_out, accepted_append]
      rw [h1, a, b, c]
      simp only [Bool.or_assoc]
    | brk s1 =>
      simp only [Option.some.injEq] at h
      obtain ⟨hs1, hout, _⟩ := iteration_brk inflate s s1 out hi
      subst h
      simp [mandatory_err, mandatory_out, hs1, hout, accepted]
    | ret e img =>
      simp only [Option.some.injEq] at h
      subst h
      exfalso
      rcases hok with hok | ⟨e', he', ha⟩
      · simp at hok
      · simp only [Option.some.injEq] at he'
        subst he'
        rcases iteration_ret inflate s e img out hi with h | h | h | h | ⟨z, h⟩ <;>
          subst h <;> simp [ParseError.afterLoop] at ha

set_option maxRecDepth 100000 in
/-- C11. Whenever `Parse` returns after the chunk loop has ended, that is with
no error or with one of the three missing-chunk errors (the errors returned
inside the loop are other ones), the error is the first missing chunk in the
order header, data, end, a chunk counting as seen when a chunk of its type
passed the CRC check: missing IHDR when no IHDR was accepted, else missing IDAT
when no IDAT was accepted, else missing IEND when no IEND was accepted.  The
signature alone gives missing IHDR, as does the signature with an IEND chunk;
the signature with a valid IHDR chunk gives missing IDAT, also when an IEND
chunk follows; and with IHDR and IDAT chunks only it gives missing IEND. -/
theorem Parse_first_missing :
    (∀ (inflate : List Nat → Except ZlibError (List Nat)) (src : List Nat) (self : Image),
      ∃ r, Parse inflate src self = some r ∧
        ((r.err = none ∨ ∃ e, r.err = some e ∧ e.afterLoop = true) →
          r.err = firstMissing (accepted IHDR r.out) (accepted IDAT r.out)
            (accepted IEND r.out))) ∧
      (Parse inflateStored validSignature Image.zero).map Result.err =
        some (some .missingIhdr) ∧
      (Parse inflateStored (validSignature ++ (mkChunk IEND []).bytes) Image.zero).map
        Result.err = some (some .missingIhdr) ∧
      (Parse inflateStored (validSignature ++ (mkChunk IHDR ihdr118.encode).bytes)
        Image.zero).map Result.err = some (some .missingIdat) ∧
      (Parse inflateStored (validSignature ++ (mkChunk IHDR ihdr118.encode).bytes ++
        (mkChunk IEND []).bytes) Image.zero).map Result.err = some (some .missingIdat) ∧
      (Parse inflateStored (validSignature ++ (mkChunk IHDR ihdr118.encode).bytes ++
        (mkChunk IDAT zlib00).bytes) Image.zero).map Result.err = some (some .missingIend) := by
  refine ⟨?_, by decide, by decide, by decide, by decide, by decide⟩
  intro inflate src self
  obtain ⟨r, hr⟩ := Parse_some inflate src self
  refine ⟨r, hr, fun hok => ?_⟩
  unfold Parse at hr
  simp only at hr
  split_ifs at hr with h1 h2 h3
  · simp only [Option.some.injEq] at hr; subst hr; simp [ParseError.afterLoop] at hok
  · simp only [Option.some.injEq] at hr; subst hr; simp [ParseError.afterLoop] at hok
  · simp only [Option.some.injEq] at hr; subst hr; simp [ParseError.afterLoop] at hok
  · simp only [Option.map_eq_some'] at hr
    obtain ⟨r1, hr1, rfl⟩ := hr
    have hf := chunkLoop_flags inflate _ _ r1 hr1 hok
    simp only [Result.after_err, Result.after_out, accepted_append]
    simpa [accepted] using hf

/-- What a pass of the loop body does to the receiver: on a return or a break
it leaves it alone, otherwise it appends to the image data what the zlib
reader gave and keeps the header unless an IHDR chunk was accepted. -/
theorem dispatch_self (inflate : List Nat → Except ZlibError (List Nat)) (s : LoopState)
    (t d : List Nat) (l : Nat) :
    match (dispatch inflate s t d l).1 with
    | .next s1 =>
      s1.self.idat =
          s.self.idat ++ (inflateCalls (dispatch inflate s t d l).2).flatMap (inflated inflate) ∧
        (accepted IHDR (dispatch inflate s t d l).2 = false → s1.self.ihdr = s.self.ihdr)
    | .brk _ => False
    | .ret _ img =>
      img = s.self ∧ (inflateCalls (dispatch inflate s t d l).2).flatMap (inflated inflate) = [] := by
  unfold dispatch
  simp only
  split_ifs with h1 h2 h3 h4
  · unfold parseIHDR
    split_ifs
    · simp [inflateCalls]
    · simp [inflateCalls, accepted, h1]
  · simp [inflateCalls]
  · unfold parseIDAT
    rcases hi : inflate d with z | o
    · simp [inflateCalls, inflated, hi]
    · simp only
      split_ifs with h5
      · simp [inflateCalls, inflated, hi, List.length_eq_zero.mp h5]
      · simp [inflateCalls, inflated, hi]
  · simp [inflateCalls]
  · simp [inflateCalls]

theorem iteration_self (inflate : List Nat → Except ZlibError (List Nat)) (s : LoopState) :
    match (iteration inflate s).1 with
    | .next s1 =>
      s1.self.idat =
          s.self.idat ++ (inflateCalls (iteration inflate s).2).flatMap (inflated inflate) ∧
        (accepted IHDR (iteration inflate s).2 = false → s1.self.ihdr = s.self.ihdr)
    | .brk s1 => s1.self = s.self ∧ inflateCalls (iteration inflate s).2 = [] ∧
        accepted IHDR (iteration inflate s).2 = false
    | .ret _ img =>
      img = s.self ∧ (inflateCalls (iteration inflate s).2).flatMap (inflated inflate) = [] := by
  unfold iteration
  simp only
  split_ifs with h1 h2 h3 h4 h5
  · simp [inflateCalls, accepted]
  · simp [inflateCalls]
  · simp [inflateCalls]
  · simp [inflateCalls]
  · simp [inflateCalls, accepted]
  · have hd := dispatch_self inflate
      { s with f := (Read (Read (Read s.f 8).f (Uint32 (slice (Read s.f 8).buf 0 4))).f 4).f }
      (slice (Read s.f 8).buf 4 8)
      (Read (Read s.f 8).f (Uint32 (slice (Read s.f 8).buf 0 4))).buf
      (Uint32 (slice (Read s.f 8).buf 0 4))
    simp only [inflateCalls_append, accepted_append]
    revert hd
    rcases (dispatch inflate
      { s with f := (Read (Read (Read s.f 8).f (Uint32 (slice (Read s.f 8).buf 0 4))).f 4).f }
      (slice (Read s.f 8).buf 4 8)
      (Read (Read s.f 8).f (Uint32 (slice (Read s.f 8).buf 0 4))).buf
      (Uint32 (slice (Read s.f 8).buf 0 4))) with ⟨fl, out⟩
    cases fl <;> simp [inflateCalls, accepted]

/-- The receiver after the loop: the image data is extended by what the zlib
reader gave, and the header is kept when no IHDR chunk was accepted. -/
theorem chunkLoop_self (inflate : List Nat → Except ZlibError (List Nat)) :
    ∀ (fuel : Nat) (s : LoopState) (r : Result), chunkLoop inflate fuel s = some r →
      r.self.idat = s.self.idat ++ (inflateCalls r.out).flatMap (inflated inflate) ∧
        (accepted IHDR r.out = false → r.self.ihdr = s.self.ihdr) := by
  intro fuel
  induction fuel with
  | zero => intro s r h; simp [chunkLoop] at h
  | succ n ih =>
    intro s r h
    simp only [chunkLoop] at h
    have hs := iteration_self inflate s
    rcases hi : iteration inflate s with ⟨fl, out⟩
    rw [hi] at h hs
    cases fl with
    | next s1 =>
      simp only [Option.map_eq_some'] at h
      obtain ⟨r1, hr1, rfl⟩ := h
      obtain ⟨h1, h2⟩ := ih s1 r1 hr1
      simp only at hs
      simp only [Result.after_self, Result.after_out, inflateCalls_append, List.flatMap_append,
        accepted_append, Bool.or_eq_false_iff]
      refine ⟨by rw [h1, hs.1, List.append_assoc], fun hacc => ?_⟩
      rw [h2 hacc.2, hs.2 hacc.1]
    | brk s1 =>
      simp only [Option.some.injEq] at h
      simp only at hs
      subst h
      simp [mandatory_self, mandatory_out, hs.1, hs.2.1]
    | ret e img =>
      simp only [Option.some.injEq] at h
      simp only at hs
      subst h
      simp [hs.1, hs.2]

/-- The errors the loop and the check after it can give. -/
theorem chunkLoop_err (inflate : List Nat → Except ZlibError (List Nat)) :
    ∀ (fuel : Nat) (s : LoopState) (r : Result), chunkLoop inflate fuel s = some r →
      r.err = none ∨ r.err = some .missingIhdr ∨ r.err = some .missingIdat ∨
        r.err = some .missingIend ∨ r.err = some .chunkDataRead ∨ r.err = some .chunkCrcRead ∨
        r.err = some .idatBeforeIhdr ∨ r.err = some .ihdrSize ∨ ∃ z, r.err = some (.zlib z) := by
  intro fuel
  induction fuel with
  | zero => intro s r h; simp [chunkLoop] at h
  | succ n ih =>
    intro s r h
    simp only [chunkLoop] at h
    rcases hi : iteration inflate s with ⟨fl, out⟩
    rw [hi] at h
    cases fl with
    | next s1 =>
      simp only [Option.map_eq_some'] at h
      obtain ⟨r1, hr1, rfl⟩ := h
      exact ih s1 r1 hr1
    | brk s1 =>
      simp only [Option.some.injEq] at h
      subst h
      simp only [Result.after_err, mandatory_err, firstMissing]
      split_ifs <;> simp
    | ret e img =>
      simp only [Option.some.injEq] at h
      subst h
      rcases iteration_ret inflate s e img out hi with h | h | h | h | ⟨z, h⟩ <;>
        subst h <;> simp

set_option maxRecDepth 100000 in
/-- C12 fails as stated: from the zero image, the signature with a valid IHDR
chunk gives the error for a missing IDAT and leaves the decoded header in the
image; with an IDAT chunk added it gives the error for a missing IEND and
leaves the header and the inflated bytes. -/
theorem Parse_receiver_counterexample :
    (Parse inflateStored (validSignature ++ (mkChunk IHDR ihdr118.encode).bytes)
        Image.zero).map Result.outcome = some (some .missingIdat, ⟨⟨1, 1, 8, 0, 0, 0, 0⟩, []⟩) ∧
      (Parse inflateStored (validSignature ++ (mkChunk IHDR ihdr118.encode).bytes ++
        (mkChunk IDAT zlib00).bytes) Image.zero).map Result.outcome =
        some (some .missingIend, ⟨⟨1, 1, 8, 0, 0, 0, 0⟩, [0, 0]⟩) ∧
      (⟨⟨1, 1, 8, 0, 0, 0, 0⟩, []⟩ : Image) ≠ Image.zero := by
  decide

theorem parseIHDR_err_self (self x : Image) (d : List Nat) :
    (parseIHDR x d).2 = (parseIHDR self d).2 ∧
      ((parseIHDR self d).2 = none → (parseIHDR x d).1.ihdr = (parseIHDR self d).1.ihdr) := by
  unfold parseIHDR
  split_ifs <;> simp

theorem parseIDAT_err_self (inflate : List Nat → Except ZlibError (List Nat)) (self x : Image)
    (d : List Nat) : (parseIDAT inflate x d).2 = (parseIDAT inflate self d).2 := by
  unfold parseIDAT
  rcases inflate d with z | o
  · rfl
  · simp only
    split_ifs <;> rfl

/-- The switch on a state that differs in the receiver only: the same events
and the same way out, and the same header after an accepted IHDR chunk. -/
theorem dispatch_erase (inflate : List Nat → Except ZlibError (List Nat)) (s : LoopState)
    (x : Image) (t d : List Nat) (l : Nat) :
    (dispatch inflate { s with self := x } t d l).2 = (dispatch inflate s t d l).2 ∧
      match (dispatch inflate s t d l).1, (dispatch inflate { s with self := x } t d l).1 with
      | .next s1, .next s2 =>
        s2 = { s1 with self := s2.self } ∧
          (accepted IHDR (dispatch inflate s t d l).2 = true → s2.self.ihdr = s1.self.ihdr)
      | .ret e _, .ret e' _ => e = e'
      | _, _ => False := by
  unfold dispatch
  simp only
  split_ifs with h1 h2 h3 h4
  · have h := parseIHDR_err_self s.self x d
    rw [h.1]
    rcases hp : (parseIHDR s.self d).2 with _ | e
    · simp [h.2 hp]
    · simp
  · simp
  · rw [parseIDAT_err_self inflate s.self x d]
    rcases hp : (parseIDAT inflate s.self d).2 with _ | e
    · simp [accepted, h2, IDAT, IHDR]
    · simp
  · simp [accepted, h4, IEND, IHDR]
  · simp [accepted, h1]

theorem iteration_erase (inflate : List Nat → Except ZlibError (List Nat)) (s : LoopState)
    (x : Image) :
    (iteration inflate { s with self := x }).2 = (iteration inflate s).2 ∧
      match (iteration inflate s).1, (iteration inflate { s with self := x }).1 with
      | .next s1, .next s2 =>
        s2 = { s1 with self := s2.self } ∧
          (accepted IHDR (iteration inflate s).2 = true → s2.self.ihdr = s1.self.ihdr)
      | .brk s1, .brk s2 => s2 = { s1 with self := s2.self }
      | .ret e _, .ret e' _ => e = e'
      | _, _ => False := by
  unfold iteration
  simp only
  split_ifs with h1 h2 h3 h4 h5
  · simp
  · simp
  · simp
  · simp
  · simp [accepted]
  · have hd := dispatch_erase inflate
      { s with f := (Read (Read (Read s.f 8).f (Uint32 (slice (Read s.f 8).buf 0 4))).f 4).f } x
      (slice (Read s.f 8).buf 4 8)
      (Read (Read s.f 8).f (Uint32 (slice (Read s.f 8).buf 0 4))).buf
      (Uint32 (slice (Read s.f 8).buf 0 4))
    simp only at hd
    simp only [hd.1, accepted_append, true_and]
    have hd2 := hd.2
    revert hd2
    generalize (dispatch inflate
      ⟨(Read (Read (Read s.f 8).f (Uint32 (slice (Read s.f 8).buf 0 4))).f 4).f, s.self,
        s.isReadIhdr, s.isReadIdat, s.isReadIend⟩
      (slice (Read s.f 8).buf 4 8)
      (Read (Read s.f 8).f (Uint32 (slice (Read s.f 8).buf 0 4))).buf
      (Uint32 (slice (Read s.f 8).buf 0 4))) = r1
    generalize (dispatch inflate
      ⟨(Read (Read (Read s.f 8).f (Uint32 (slice (Read s.f 8).buf 0 4))).f 4).f, x,
        s.isReadIhdr, s.isReadIdat, s.isReadIend⟩
      (slice (Read s.f 8).buf 4 8)
      (Read (Read s.f 8).f (Uint32 (slice (Read s.f 8).buf 0 4))).buf
      (Uint32 (slice (Read s.f 8).buf 0 4))) = r2
    rcases r1 with ⟨fl1, out1⟩
    rcases r2 with ⟨fl2, out2⟩
    cases fl1 <;> cases fl2 <;> simp [accepted]

/-- The loop on two states that differ in the receiver only returns the same
error with the same events, and after success with an accepted IHDR chunk the
same header. -/
theorem chunkLoop_erase (inflate : List Nat → Except ZlibError (List Nat)) :
    ∀ (fuel : Nat) (s : LoopState) (x : Image) (r : Result),
      chunkLoop inflate fuel s = some r →
      ∃ r', chunkLoop inflate fuel { s with self := x } = some r' ∧ r'.err = r.err ∧
        r'.out = r.out ∧
        (accepted IHDR r.out = true → r.err = none → r'.self.ihdr = r.self.ihdr) := by
  intro fuel
  induction fuel with
  | zero => intro s x r h; simp [chunkLoop] at h
  | succ n ih =>
    intro s x r h
    simp only [chunkLoop] at h ⊢
    have he := iteration_erase inflate s x
    rcases hi : iteration inflate s with ⟨fl, out⟩
    rcases hi' : iteration inflate { s with self := x } with ⟨fl', out'⟩
    rw [hi] at h
    simp only [hi, hi'] at he
    obtain ⟨ho, hfl⟩ := he
    subst ho
    cases fl with
    | next s1 =>
      cases fl' with
      | next s2 =>
        simp only at hfl
        obtain ⟨hs2, hih⟩ := hfl
        simp only [Option.map_eq_some'] at h
        obtain ⟨r1, hr1, rfl⟩ := h
        obtain ⟨r2, hr2, e2, o2, k2⟩ := ih s1 s2.self r1 hr1
        rw [← hs2] at hr2
        refine ⟨r2.after out', by simp [hr2], by simpa using e2, by simp [o2], ?_⟩
        intro hacc hok
        simp only [Result.after_out, accepted_append, Bool.or_eq_true] at hacc
        simp only [Result.after_err] at hok
        simp only [Result.after_self]
        by_cases hl : accepted IHDR r1.out = true
        · exact k2 hl hok
        · have hl' : accepted IHDR r1.out = false := by simpa using hl
          have h1 := (chunkLoop_self inflate n s1 r1 hr1).2 hl'
          have h2 := (chunkLoop_self inflate n s2 r2 hr2).2 (by rw [o2]; exact hl')
          rw [h1, h2]
          exact hih (hacc.resolve_right hl)
      | brk s2 => simp at hfl
      | ret e img => simp at hfl
    | brk s1 =>
      cases fl' with
      | next s2 => simp at hfl
      | brk s2 =>
        simp only at hfl
        simp only [Option.some.injEq] at h
        subst h
        refine ⟨_, rfl, ?_, ?_, ?_⟩
        · rw [hfl]; simp [mandatory_err]
        · simp [mandatory_out]
        · intro hacc
          exfalso
          have := iteration_self inflate s
          rw [hi] at this
          simp only at this
          simp [mandatory_out, this.2.2] at hacc
      | ret e img => simp at hfl
    | ret e img =>
      cases fl' with
      | next s2 => simp at hfl
      | brk s2 => simp at hfl
      | ret e' img' =>
        simp only at hfl
        simp only [Option.some.injEq] at h
        subst h
        exact ⟨_, rfl, by simp [hfl], rfl, fun _ hok => by simp at hok⟩

set_option maxRecDepth 100000 in
/-- C13, as amended. For every input and any two receivers, `Parse` returns
the same error and goes through the same events; after success the header is
the same; and the image data is, for both, the one the receiver held before the
call followed by the same bytes.  What the receiver held as image data
therefore carries into the result, and the results agree when the two
receivers held the same image data. -/
theorem Parse_two_receivers (inflate : List Nat → Except ZlibError (List Nat)) (src : List Nat)
    (self1 self2 : Image) :
    ∃ r1 r2, Parse inflate src self1 = some r1 ∧ Parse inflate src self2 = some r2 ∧
      r1.err = r2.err ∧ r1.out = r2.out ∧ (r1.err = none → r1.self.ihdr = r2.self.ihdr) ∧
      r1.self.idat = self1.idat ++ (inflateCalls r1.out).flatMap (inflated inflate) ∧
      r2.self.idat = self2.idat ++ (inflateCalls r1.out).flatMap (inflated inflate) ∧
      (r1.err = none → self1.idat = self2.idat → r1.self = r2.self) := by
  obtain ⟨r1, hr1⟩ := Parse_some inflate src self1
  obtain ⟨r2, hr2⟩ := Parse_some inflate src self2
  have key : r1.err = r2.err ∧ r1.out = r2.out ∧ (r1.err = none → r1.self.ihdr = r2.self.ihdr) ∧
      r1.self.idat = self1.idat ++ (inflateCalls r1.out).flatMap (inflated inflate) ∧
      r2.self.idat = self2.idat ++ (inflateCalls r2.out).flatMap (inflated inflate) := by
    have hr1' := hr1
    have hr2' := hr2
    unfold Parse at hr1' hr2'
    simp only at hr1' hr2'
    split_ifs at hr1' hr2' with h1 h2 h3
    · simp only [Option.some.injEq] at hr1' hr2'; subst hr1'; subst hr2'; simp [inflateCalls]
    · simp only [Option.some.injEq] at hr1' hr2'; subst hr1'; subst hr2'; simp [inflateCalls]
    · simp only [Option.some.injEq] at hr1' hr2'; subst hr1'; subst hr2'; simp [inflateCalls]
    · simp only [Option.map_eq_some'] at hr1' hr2'
      obtain ⟨q1, hq1, rfl⟩ := hr1'
      obtain ⟨q2, hq2, rfl⟩ := hr2'
      obtain ⟨q2', hq2', e, o, k⟩ := chunkLoop_erase inflate _ _ self2 q1 hq1
      simp only at hq2'
      rw [hq2] at hq2'
      simp only [Option.some.injEq] at hq2'
      subst hq2'
      have d1 := (chunkLoop_self inflate _ _ q1 hq1).1
      have d2 := (chunkLoop_self inflate _ _ q2 hq2).1
      refine ⟨by simp [e], by simp [o], ?_, by simpa [inflateCalls_append, inflateCalls] using d1,
        by simpa [inflateCalls_append, inflateCalls] using d2⟩
      intro hok
      simp only [Result.after_err] at hok
      have hf := chunkLoop_flags inflate _ _ q1 hq1 (Or.inl hok)
      have hacc : accepted IHDR q1.out = true := by
        rw [hok] at hf
        unfold firstMissing at hf
        simp only [Bool.false_or] at hf
        split_ifs at hf with g1
        simpa using g1
      simp only [Result.after_self]
      exact (k hacc hok).symm
  obtain ⟨ke, ko, kh, hd1, hd2⟩ := key
  refine ⟨r1, r2, hr1, hr2, ke, ko, kh, hd1, by rw [ko]; exact hd2, ?_⟩
  intro hok hid
  have hh := kh hok
  have hdd : r1.self.idat = r2.self.idat := by rw [hd1, hd2, ko, hid]
  rcases r1 with ⟨e1, ⟨i1, d1⟩, o1⟩
  rcases r2 with ⟨e2, ⟨i2, d2⟩, o2⟩
  simp only at hh hdd
  simp [hh, hdd]

set_option maxRecDepth 100000 in
/-- C13 fails as stated: `minimalFile` parsed into the zero image gives the
image data `00 00`, and parsed into an image that already holds the byte `07`
it gives `07 00 00`. -/
theorem Parse_two_receivers_counterexample :
    (Parse inflateStored minimalFile Image.zero).map Result.outcome =
        some (none, ⟨⟨1, 1, 8, 0, 0, 0, 0⟩, [0, 0]⟩) ∧
      (Parse inflateStored minimalFile ⟨⟨0, 0, 0, 0, 0, 0, 0⟩, [7]⟩).map Result.outcome =
        some (none, ⟨⟨1, 1, 8, 0, 0, 0, 0⟩, [7, 0, 0]⟩) := by
  decide

/-- C14, as amended. Fewer than eight bytes where a chunk header should start,
none or one to seven, end the chunk loop: after the signature and any fully
framed chunks, such leftover bytes do not change the error `Parse` returns nor
the image it leaves, which are those of the input without them. -/
theorem Parse_leftover_bytes (inflate : List Nat → Except ZlibError (List Nat))
    (cs : List RawChunk) (tail : List Nat) (self : Image) (hcs : ∀ c ∈ cs, c.Framed)
    (htail : tail.length < 8) :
    (Parse inflate (validSignature ++ chunksBytes cs ++ tail) self).map Result.outcome =
      (Parse inflate (validSignature ++ chunksBytes cs) self).map Result.outcome := by
  have e1 : validSignature ++ chunksBytes cs = validSignature ++ (chunksBytes cs ++ []) := by
    simp
  rw [List.append_assoc, e1, Parse_chunks_outcome inflate cs tail self hcs,
    Parse_chunks_outcome inflate cs [] self hcs]
  rcases (feedAll inflate ⟨[], self, false, false, false⟩ cs).1 with s1 | s1 | ⟨e, img⟩
  · simp only
    rw [run_short_outcome inflate _ htail, run_short_outcome inflate _ (by simp)]
    simp [mandatory, Result.outcome]
  · rfl
  · rfl

set_option maxRecDepth 100000 in
/-- An input for C14: the chunks of `minimalFile` followed by three bytes. -/
theorem Parse_leftover_bytes_witness :
    (∀ c ∈ [mkChunk IHDR ihdr118.encode, mkChunk IDAT zlib00, mkChunk IEND []], c.Framed) ∧
      [1, 2, 3].length < 8 ∧
      (Parse inflateStored
          (validSignature ++
            chunksBytes [mkChunk IHDR ihdr118.encode, mkChunk IDAT zlib00, mkChunk IEND []] ++
            [1, 2, 3]) Image.zero).map Result.outcome =
        (Parse inflateStored
          (validSignature ++
            chunksBytes [mkChunk IHDR ihdr118.encode, mkChunk IDAT zlib00, mkChunk IEND []])
          Image.zero).map Result.outcome :=
  ⟨by decide, by decide,
    Parse_leftover_bytes inflateStored
      [mkChunk IHDR ihdr118.encode, mkChunk IDAT zlib00, mkChunk IEND []] [1, 2, 3] Image.zero
      (by decide) (by decide)⟩

set_option maxRecDepth 100000 in
/-- C14 fails as stated: with three bytes left after the IEND chunk of
`minimalFile`, and with seven bytes left after the signature, `Parse` does not
return the chunk header read error; the first parse succeeds and the second
gives the error for a missing IHDR. -/
theorem Parse_leftover_bytes_counterexample :
    (Parse inflateStored (minimalFile ++ [1, 2, 3]) Image.zero).map Result.outcome =
        some (none, ⟨⟨1, 1, 8, 0, 0, 0, 0⟩, [0, 0]⟩) ∧
      (Parse inflateStored (validSignature ++ [0, 0, 0, 13, 0x49, 0x48, 0x44])
        Image.zero).map Result.outcome = some (some .missingIhdr, Image.zero) := by
  decide

/-- The loop gives the same error and image with and without a CRC-valid chunk
of a type other than IHDR, IDAT and IEND. -/
theorem run_other_outcome (inflate : List Nat → Except ZlibError (List Nat)) (s : LoopState)
    (c : RawChunk) (rest : List Nat) (hc : c.Framed) (hcrc : c.crc = c.dataCrc)
    (h1 : c.tag ≠ IHDR) (h2 : c.tag ≠ IDAT) (h3 : c.tag ≠ IEND) :
    (run inflate { s with f := c.bytes ++ rest }).map Result.outcome =
      (run inflate { s with f := rest }).map Result.outcome := by
  rw [run_chunk inflate _ c rest hc rfl]
  simp only [feed, hcrc, ne_eq, not_true_eq_false, if_false, dispatch, h1, h2, h3, Option.map_map]
  congr 1

/-- C16. A fully framed chunk with a matching CRC whose type is none of IHDR,
IDAT and IEND, with any payload, lying where a chunk starts (after eight bytes
and any fully framed chunks), does not change the error `Parse` returns nor the
image it leaves, for any bytes after it and any receiver: both are those of the
input without that chunk. -/
theorem Parse_skip_unknown (inflate : List Nat → Except ZlibError (List Nat))
    (hd : List Nat) (pre : List RawChunk) (c : RawChunk) (rest : List Nat) (self : Image)
    (hhd : hd.length = 8) (hpre : ∀ d ∈ pre, d.Framed) (hc : c.Framed)
    (hcrc : c.crc = c.dataCrc) (h1 : c.tag ≠ IHDR) (h2 : c.tag ≠ IDAT) (h3 : c.tag ≠ IEND) :
    (Parse inflate (hd ++ chunksBytes pre ++ c.bytes ++ rest) self).map Result.outcome =
      (Parse inflate (hd ++ chunksBytes pre ++ rest) self).map Result.outcome := by
  have e1 : hd ++ chunksBytes pre ++ c.bytes ++ rest =
      hd ++ (chunksBytes pre ++ (c.bytes ++ rest)) := by simp only [List.append_assoc]
  have e2 : hd ++ chunksBytes pre ++ rest = hd ++ (chunksBytes pre ++ rest) := by
    simp only [List.append_assoc]
  rw [e1, e2]
  by_cases hv : hd = validSignature
  · subst hv
    rw [Parse_chunks_outcome inflate pre _ self hpre, Parse_chunks_outcome inflate pre _ self hpre]
    rcases (feedAll inflate ⟨[], self, false, false, false⟩ pre).1 with s1 | s1 | ⟨e, img⟩
    · exact run_other_outcome inflate s1 c rest hc hcrc h1 h2 h3
    · rfl
    · rfl
  · rw [Parse_other_header inflate hd _ self hhd hv, Parse_other_header inflate hd _ self hhd hv]

set_option maxRecDepth 100000 in
/-- An input for C16: a tEXt chunk between the IHDR and IDAT chunks of
`minimalFile`; the parse succeeds with the same image as without it. -/
theorem Parse_skip_unknown_witness :
    validSignature.length = 8 ∧ (∀ d ∈ [mkChunk IHDR ihdr118.encode], d.Framed) ∧
      (mkChunk tEXt [0x41, 0x42]).Framed ∧
      (mkChunk tEXt [0x41, 0x42]).crc = (mkChunk tEXt [0x41, 0x42]).dataCrc ∧
      (mkChunk tEXt [0x41, 0x42]).tag ≠ IHDR ∧ (mkChunk tEXt [0x41, 0x42]).tag ≠ IDAT ∧
      (mkChunk tEXt [0x41, 0x42]).tag ≠ IEND ∧
      (Parse inflateStored
          (validSignature ++ chunksBytes [mkChunk IHDR ihdr118.encode] ++
            (mkChunk tEXt [0x41, 0x42]).bytes ++
            ((mkChunk IDAT zlib00).bytes ++ (mkChunk IEND []).bytes))
          Image.zero).map Result.outcome =
        (Parse inflateStored
          (validSignature ++ chunksBytes [mkChunk IHDR ihdr118.encode] ++
            ((mkChunk IDAT zlib00).bytes ++ (mkChunk IEND []).bytes))
          Image.zero).map Result.outcome ∧
      (Parse inflateStored
          (validSignature ++ chunksBytes [mkChunk IHDR ihdr118.encode] ++
            (mkChunk tEXt [0x41, 0x42]).bytes ++
            ((mkChunk IDAT zlib00).bytes ++ (mkChunk IEND []).bytes))
          Image.zero).map Result.outcome = some (none, ⟨⟨1, 1, 8, 0, 0, 0, 0⟩, [0, 0]⟩) :=
  ⟨by decide, by decide, by decide, by decide, by decide, by decide, by decide,
    Parse_skip_unknown inflateStored validSignature [mkChunk IHDR ihdr118.encode]
      (mkChunk tEXt [0x41, 0x42]) ((mkChunk IDAT zlib00).bytes ++ (mkChunk IEND []).bytes)
      Image.zero (by decide) (by decide) (by decide) (by decide) (by decide) (by decide)
      (by decide),
    by decide⟩

set_option maxRecDepth 100000 in
/-- C15, the code at the failing inputs. A chunk cut inside its CRC is not
reported.  `truncatedFile`, whose last chunk lacks the last CRC byte, is parsed
without error, the cut chunk being accepted as IEND.  `minimalFile` followed by
the header and payload of a tEXt chunk and one byte of its CRC is parsed
without error, the cut chunk being skipped for its CRC.  Only when no byte of
the CRC is left does `Parse` return the chunk CRC read error, and only when
no byte of a non-empty payload is left the chunk data read error. -/
theorem Parse_truncated_chunk :
    (Parse inflateStored truncatedFile Image.zero).map Result.err = some none ∧
      (Parse inflateStored (minimalFile ++ [0, 0, 0, 1, 0x74, 0x45, 0x58, 0x74, 0x41, 0x12])
        Image.zero).map Result.err = some none ∧
      (Parse inflateStored (minimalFile ++ [0, 0, 0, 1, 0x74, 0x45, 0x58, 0x74, 0x41])
        Image.zero).map Result.err = some (some .chunkCrcRead) ∧
      (Parse inflateStored (minimalFile ++ [0, 0, 0, 5, 0x74, 0x45, 0x58, 0x74, 0x41, 0x42])
        Image.zero).map Result.err = some (some .chunkCrcRead) ∧
      (Parse inflateStored (minimalFile ++ [0, 0, 0, 1, 0x74, 0x45, 0x58, 0x74])
        Image.zero).map Result.err = some (some .chunkDataRead) := by
  decide

/-- After an IHDR, chunks that are skipped for their CRC or are accepted
without error (an IHDR of 13 bytes, an IDAT that inflates, any other type)
keep the loop going, and the IHDR flag stays set. -/
theorem feedAll_reach (inflate : List Nat → Except ZlibError (List Nat)) :
    ∀ (post : List RawChunk) (s : LoopState), s.isReadIhdr = true →
      (∀ c ∈ post, c.crc = c.dataCrc → (c.tag = IHDR → c.payload.length = 13) ∧
        (c.tag = IDAT → ∃ o, inflate c.payload = .ok o)) →
      ∃ s1, (feedAll inflate s post).1 = .next s1 ∧ s1.isReadIhdr = true := by
  intro post
  induction post with
  | nil => intro s hs _; exact ⟨s, rfl, hs⟩
  | cons c cs ih =>
    intro s hs h
    have hc := h c (List.mem_cons_self _ _)
    have hf : ∃ s0, (feed inflate s c).1 = .next s0 ∧ s0.isReadIhdr = true := by
      unfold feed
      by_cases hcrc : c.crc = c.dataCrc
      · obtain ⟨h2, h3⟩ := hc hcrc
        simp only [hcrc, ne_eq, not_true_eq_false, if_false, dispatch]
        by_cases t1 : c.tag = IHDR
        · simp only [t1, if_true, parseIHDR_ok s.self c.payload (h2 t1)]
          exact ⟨_, rfl, rfl⟩
        · by_cases t2 : c.tag = IDAT
          · obtain ⟨o, ho⟩ := h3 t2
            simp only [t1, t2, if_false, if_true, hs, Bool.not_true, Bool.false_eq_true,
              parseIDAT_ok inflate s.self c.payload o ho]
            exact ⟨_, rfl, rfl⟩
          · simp only [t1, t2, if_false]
            split_ifs
            · exact ⟨_, rfl, hs⟩
            · exact ⟨_, rfl, hs⟩
      · simp only [ne_eq, hcrc, not_false_eq_true, if_true]
        exact ⟨_, rfl, hs⟩
    obtain ⟨s0, e0, a0⟩ := hf
    obtain ⟨s1, e1, a1⟩ := ih s0 a0 (fun d hd => h d (List.mem_cons_of_mem _ hd))
    exact ⟨s1, by rw [feedAll_cons_flow, e0]; exact e1, a1⟩

theorem parseIDAT_error (inflate : List Nat → Except ZlibError (List Nat)) (self : Image)
    (p : List Nat) (z : ZlibError) (h : inflate p = .error z) :
    parseIDAT inflate self p = (self, some (.zlib z)) := by
  unfold parseIDAT
  rw [h]

/-- C17. When an IDAT chunk with a matching CRC is reached after an accepted
IHDR chunk (the chunks before it being fully framed and none stopping the
parse) and `inflate` fails on its payload with the error `z`, `Parse` returns
exactly `z`, whatever bytes follow the chunk; `parseIDAT` returns `z` and
leaves its receiver as it was, so the image `Parse` leaves is the one it leaves
when the file ends before that chunk. -/
theorem Parse_inflate_error (inflate : List Nat → Except ZlibError (List Nat))
    (pre post : List RawChunk) (p0 p rest : List Nat) (self : Image) (z : ZlibError)
    (hpre : ∀ c ∈ pre, c.Framed ∧ (c.crc = c.dataCrc → c.tag ≠ IHDR ∧ c.tag ≠ IDAT))
    (hp0 : p0.length = 13)
    (hpost : ∀ c ∈ post, c.Framed ∧ (c.crc = c.dataCrc →
      (c.tag = IHDR → c.payload.length = 13) ∧ (c.tag = IDAT → ∃ o, inflate c.payload = .ok o)))
    (hp : p.length < 2 ^ 32) (hz : inflate p = .error z) :
    ∃ img,
      (Parse inflate
          (validSignature ++ chunksBytes (pre ++ mkChunk IHDR p0 :: post) ++
            (mkChunk IDAT p).bytes ++ rest) self).map Result.outcome =
        some (some (.zlib z), img) ∧
      (Parse inflate (validSignature ++ chunksBytes (pre ++ mkChunk IHDR p0 :: post))
        self).map Result.self = some img ∧
      ∀ x, parseIDAT inflate x p = (x, some (.zlib z)) := by
  have hcs : ∀ c ∈ pre ++ mkChunk IHDR p0 :: post, c.Framed := by
    intro c hc
    rcases List.mem_append.mp hc with h | h
    · exact (hpre c h).1
    · rcases List.mem_cons.mp h with rfl | h
      · exact mkChunk_framed _ _ rfl (by rw [hp0]; norm_num)
      · exact (hpost c h).1
  obtain ⟨s1, out1, h1, a1, b1, _, _⟩ :=
    feedAll_skipped inflate pre ⟨[], self, false, false, false⟩ (fun c hc => (hpre c hc).2)
  simp only at a1 b1
  have hd : (dispatch inflate s1 IHDR p0 p0.length).1 =
      .next { s1 with self := (parseIHDR s1.self p0).1, isReadIhdr := true } := by
    simp [dispatch, parseIHDR_ok s1.self p0 hp0]
  obtain ⟨s2, e2, a2⟩ := feedAll_reach inflate post
    { s1 with self := (parseIHDR s1.self p0).1, isReadIhdr := true } rfl
    (fun c hc => (hpost c hc).2)
  have hflow : (feedAll inflate ⟨[], self, false, false, false⟩
      (pre ++ mkChunk IHDR p0 :: post)).1 = .next s2 := by
    rw [feedAll_append_flow, h1]
    simp only
    rw [feedAll_cons_flow, feed_mkChunk]
    simp only [hd]
    exact e2
  refine ⟨s2.self, ?_, ?_, fun x => parseIDAT_error inflate x p z hz⟩
  · have hb : validSignature ++ chunksBytes (pre ++ mkChunk IHDR p0 :: post) ++
        (mkChunk IDAT p).bytes ++ rest =
        validSignature ++ (chunksBytes (pre ++ mkChunk IHDR p0 :: post) ++
          ((mkChunk IDAT p).bytes ++ rest)) := by simp only [List.append_assoc]
    rw [hb, Parse_chunks_outcome inflate _ _ self hcs, hflow]
    simp only
    rw [run_chunk inflate _ (mkChunk IDAT p) rest (mkChunk_framed _ _ rfl hp) rfl, feed_mkChunk]
    have hd2 : (dispatch inflate { s2 with f := (mkChunk IDAT p).bytes ++ rest } IDAT p
        p.length).1 = .ret (.zlib z) s2.self := by
      simp [dispatch, IDAT, IHDR, a2, parseIDAT_error inflate s2.self p z hz]
    simp only [hd2, Option.map_some', Result.outcome]
  · have hb : validSignature ++ chunksBytes (pre ++ mkChunk IHDR p0 :: post) =
        validSignature ++ (chunksBytes (pre ++ mkChunk IHDR p0 :: post) ++ []) := by simp
    have hout := Parse_chunks_outcome inflate (pre ++ mkChunk IHDR p0 :: post) [] self hcs
    rw [hflow] at hout
    simp only at hout
    rw [run_nil_outcome inflate _ rfl] at hout
    rw [hb]
    rcases hP : Parse inflate (validSignature ++
      (chunksBytes (pre ++ mkChunk IHDR p0 :: post) ++ [])) self with _ | r
    · rw [hP] at hout; simp at hout
    · rw [hP] at hout
      simp only [Option.map_some', Option.some.injEq, Result.outcome, Prod.mk.injEq,
        mandatory_self] at hout
      simp [hout.2]

set_option maxRecDepth 100000 in
/-- An input for C17: an IDAT chunk with a wrong CRC and a tEXt chunk, an IHDR
chunk, an IDAT chunk that inflates, an IDAT chunk whose payload is the single
byte `00`, and an IEND chunk. -/
theorem Parse_inflate_error_witness :
    (∀ c ∈ [RawChunk.mk IDAT zlib00 0, mkChunk tEXt [0x41]],
        c.Framed ∧ (c.crc = c.dataCrc → c.tag ≠ IHDR ∧ c.tag ≠ IDAT)) ∧
      ihdr118.encode.length = 13 ∧ [0].length < 2 ^ 32 ∧
      inflateStored [0] = .error .unexpectedEOF ∧
      ∃ img,
        (Parse inflateStored
            (validSignature ++ chunksBytes ([RawChunk.mk IDAT zlib00 0, mkChunk tEXt [0x41]] ++
              mkChunk IHDR ihdr118.encode :: [mkChunk IDAT zlib00]) ++ (mkChunk IDAT [0]).bytes ++
              (mkChunk IEND []).bytes)
            Image.zero).map Result.outcome = some (some (.zlib .unexpectedEOF), img) ∧
        (Parse inflateStored
            (validSignature ++ chunksBytes ([RawChunk.mk IDAT zlib00 0, mkChunk tEXt [0x41]] ++
              mkChunk IHDR ihdr118.encode :: [mkChunk IDAT zlib00])) Image.zero).map
            Result.self = some img ∧
        ∀ x, parseIDAT inflateStored x [0] = (x, some (.zlib .unexpectedEOF)) :=
  ⟨by decide, by decide, by decide, rfl,
    Parse_inflate_error inflateStored [RawChunk.mk IDAT zlib00 0, mkChunk tEXt [0x41]]
      [mkChunk IDAT zlib00] ihdr118.encode [0] (mkChunk IEND []).bytes Image.zero .unexpectedEOF
      (by decide) (by decide)
      (by
        intro c hc
        rw [List.mem_singleton.mp hc]
        exact ⟨by decide, fun _ => ⟨fun h => absurd h (by decide), fun _ => ⟨[0, 0], rfl⟩⟩⟩)
      (by decide) rfl⟩

theorem acceptedIhdr_cons (c : RawChunk) (cs : List RawChunk) :
    acceptedIhdr (c :: cs) = acceptedIhdr [c] ++ acceptedIhdr cs := by
  simp only [acceptedIhdr, List.filter_cons, List.filter_nil]
  split_ifs <;> simp

theorem parseIHDR_ihdr (self : Image) (d : List Nat) (h : (parseIHDR self d).2 = none) :
    (parseIHDR self d).1.ihdr = decodeIhdr d ∧ (parseIHDR self d).1.idat = self.idat ∧
      d.length = 13 := by
  unfold decodeIhdr parseIHDR at *
  split_ifs at h ⊢ with h1
  simp only [ne_eq, Decidable.not_not] at h1
  exact ⟨rfl, rfl, h1⟩

/-- What a framed chunk that lets the loop go on does to the header and to the
IHDR flag. -/
theorem feed_next_ihdr (inflate : List Nat → Except ZlibError (List Nat)) (s s1 : LoopState)
    (c : RawChunk) (h : (feed inflate s c).1 = .next s1) :
    (acceptedIhdr [c] = [] ∧ s1.self.ihdr = s.self.ihdr ∧ s1.isReadIhdr = s.isReadIhdr) ∨
      (acceptedIhdr [c] = [c.payload] ∧ c.payload.length = 13 ∧
        s1.self.ihdr = decodeIhdr c.payload ∧ s1.isReadIhdr = true) := by
  unfold feed at h
  by_cases hcrc : c.crc = c.dataCrc
  · simp only [hcrc, ne_eq, not_true_eq_false, if_false] at h
    unfold dispatch at h
    simp only at h
    split_ifs at h with h1 h2 h3 h4
    · right
      rcases hp : (parseIHDR s.self c.payload).2 with _ | e
      · simp only [hp, Flow.next.injEq] at h
        obtain ⟨a, _, b⟩ := parseIHDR_ihdr s.self c.payload hp
        rw [← h]
        exact ⟨by simp [acceptedIhdr, h1, hcrc], b, a, rfl⟩
      · simp [hp] at h
    · left
      have t1 : ¬ c.tag = IHDR := by assumption
      rcases hp : (parseIDAT inflate s.self c.payload).2 with _ | e
      · simp only [hp, Flow.next.injEq] at h
        rw [← h]
        refine ⟨by simp [acceptedIhdr, t1], ?_, rfl⟩
        unfold parseIDAT
        rcases inflate c.payload with z | o
        · rfl
        · simp only
          split_ifs <;> rfl
      · simp [hp] at h
    · left
      simp only [Flow.next.injEq] at h
      rw [← h]
      exact ⟨by simp [acceptedIhdr, h1], rfl, rfl⟩
    · left
      simp only [Flow.next.injEq] at h
      rw [← h]
      exact ⟨by simp [acceptedIhdr, h1], rfl, rfl⟩
  · left
    simp only [ne_eq, hcrc, not_false_eq_true, if_true, Flow.next.injEq] at h
    subst h
    exact ⟨by simp [acceptedIhdr, hcrc], rfl, rfl⟩

/-- After framed chunks that let the loop go on, the header is the decoded
payload of the last accepted IHDR chunk, or the one before when there is none,
and the IHDR flag is set when there is one. -/
theorem feedAll_next_ihdr (inflate : List Nat → Except ZlibError (List Nat)) :
    ∀ (cs : List RawChunk) (s s1 : LoopState), (feedAll inflate s cs).1 = .next s1 →
      (acceptedIhdr cs = [] ∧ s1.self.ihdr = s.self.ihdr ∧ s1.isReadIhdr = s.isReadIhdr) ∨
        ∃ p, (acceptedIhdr cs).getLast? = some p ∧ p.length = 13 ∧
          s1.self.ihdr = decodeIhdr p ∧ s1.isReadIhdr = true := by
  intro cs
  induction cs with
  | nil =>
    intro s s1 h
    simp only [feedAll, Flow.next.injEq] at h
    subst h
    exact Or.inl ⟨rfl, rfl, rfl⟩
  | cons c cs ih =>
    intro s s1 h
    rw [feedAll_cons_flow] at h
    rcases hf : (feed inflate s c).1 with s0 | s0 | ⟨e, img⟩
    · rw [hf] at h
      simp only at h
      rw [acceptedIhdr_cons]
      rcases ih s0 s1 h with ⟨a, b, c1⟩ | ⟨p, a, b, c1, d1⟩
      · rcases feed_next_ihdr inflate s s0 c hf with ⟨a0, b0, c0⟩ | ⟨a0, l0, b0, c0⟩
        · exact Or.inl ⟨by rw [a0, a]; rfl, b.trans b0, c1.trans c0⟩
        · refine Or.inr ⟨c.payload, by rw [a0, a]; rfl, l0, b.trans b0, c1.trans c0⟩
      · refine Or.inr ⟨p, ?_, b, c1, d1⟩
        rw [List.getLast?_append, a]
        rfl
    · rw [hf] at h; cases h
    · rw [hf] at h; cases h

/-- The header and image data after a successful parse of the signature
followed by fully framed chunks and fewer than eight further bytes. -/
theorem Parse_last_ihdr_framed (inflate : List Nat → Except ZlibError (List Nat))
    (cs : List RawChunk) (tail : List Nat) (self : Image) (hcs : ∀ c ∈ cs, c.Framed)
    (htail : tail.length < 8)
    (hok : (Parse inflate (validSignature ++ chunksBytes cs ++ tail) self).map Result.err =
      some none) :
    ∃ p, (acceptedIhdr cs).getLast? = some p ∧ p.length = 13 ∧
      (Parse inflate (validSignature ++ chunksBytes cs ++ tail) self).map Result.self =
        some ⟨decodeIhdr p, self.idat ++ (acceptedIdat cs).flatMap (inflated inflate)⟩ := by
  have hout := Parse_chunks_outcome inflate cs tail self hcs
  rw [← List.append_assoc] at hout
  rcases hP : Parse inflate (validSignature ++ chunksBytes cs ++ tail) self with _ | r
  · rw [hP] at hok; simp at hok
  · rw [hP] at hok hout
    simp only [Option.map_some', Option.some.injEq] at hok
    rcases hfl : (feedAll inflate ⟨[], self, false, false, false⟩ cs).1 with
      s1 | s1 | ⟨e, img⟩
    · rw [hfl] at hout
      simp only at hout
      rw [run_short_outcome inflate _ htail] at hout
      simp only [Option.map_some', Option.some.injEq, Result.outcome, Prod.mk.injEq,
        mandatory_self, mandatory_err] at hout
      have hidat := feedAll_next_idat inflate cs _ s1 hfl
      simp only at hidat
      rcases feedAll_next_ihdr inflate cs _ s1 hfl with ⟨_, _, c1⟩ | ⟨p, a, b, c1, _⟩
      · exfalso
        simp only at c1
        rw [hok] at hout
        have := hout.1
        simp [firstMissing, c1] at this
      · refine ⟨p, a, b, ?_⟩
        simp only [Option.map_some', Option.some.injEq]
        rw [hout.2]
        rcases s1 with ⟨f1, ⟨i1, d1⟩, x1, y1, z1⟩
        simp only at c1 hidat
        simp [c1, hidat]
    · exact absurd hfl (feedAll_not_brk inflate cs _ s1)
    · rw [hfl] at hout
      simp only [Option.map_some', Option.some.injEq, Result.outcome, Prod.mk.injEq] at hout
      rw [hok] at hout
      exact absurd hout.1 (by simp)

set_option maxRecDepth 100000 in
/-- C19. `Parse` returns on every input.  A pass of the loop body that does
not leave the loop, be it a skipped chunk, an unknown type, an IEND or an
accepted IHDR or IDAT, has taken at least eight bytes from the file; so
`(body length) / 8 + 1` passes always suffice for the loop on the bytes `body`
after the signature, that is `(input length - 8) / 8 + 1`, more passes change
nothing, and `Parse` is the loop run for that many passes.  On `minimalFile`,
62 bytes after the signature, four passes are made (the
bound is eight): three do not suffice. -/
theorem Parse_terminates :
    (∀ (inflate : List Nat → Except ZlibError (List Nat)) (s s1 : LoopState) (out : List Event),
      iteration inflate s = (.next s1, out) → s1.f.length + 8 ≤ s.f.length) ∧
      (∀ (inflate : List Nat → Except ZlibError (List Nat)) (src : List Nat) (self : Image),
        ∃ r, Parse inflate src self = some r) ∧
      (∀ (inflate : List Nat → Except ZlibError (List Nat)) (body : List Nat) (self : Image)
          (fuel : Nat), body.length / 8 + 1 ≤ fuel →
        ∃ r, chunkLoop inflate fuel ⟨body, self, false, false, false⟩ = some r ∧
          Parse inflate (validSignature ++ body) self = some (r.after [.read 8 8])) ∧
      (validSignature ++ minimalFile.drop 8 = minimalFile ∧ (minimalFile.drop 8).length = 62 ∧
        chunkLoop inflateStored 3 ⟨minimalFile.drop 8, Image.zero, false, false, false⟩ = none ∧
        (chunkLoop inflateStored 4
          ⟨minimalFile.drop 8, Image.zero, false, false, false⟩).map Result.err = some none) := by
  refine ⟨iteration_next_length, Parse_some, ?_, by decide⟩
  intro inflate body self fuel hfuel
  have hlt : (⟨body, self, false, false, false⟩ : LoopState).f.length < 8 * fuel := by
    show body.length < 8 * fuel
    omega
  obtain ⟨r, hr⟩ := chunkLoop_some inflate fuel _ hlt
  refine ⟨r, hr, ?_⟩
  rw [Parse_valid, ← run_eq inflate fuel _ hlt, hr]
  rfl

/-- C20. No pass of the loop body returns the chunk header read error: a
header read that gets fewer than eight bytes leaves the loop by `break`, and
one that gets eight bytes carries no error.  So `Parse` returns that error on
no input. -/
theorem Parse_header_error_unreachable :
    (∀ (f : List Nat), (Read f 8).n < 8 ∨ (Read f 8).eof = false) ∧
      (∀ (inflate : List Nat → Except ZlibError (List Nat)) (s : LoopState),
        (Read s.f 8).n < 8 →
          iteration inflate s = (.brk { s with f := s.f.drop 8 }, [.read 8 (Read s.f 8).n])) ∧
      (∀ (inflate : List Nat → Except ZlibError (List Nat)) (s : LoopState) (img : Image),
        (iteration inflate s).1 ≠ .ret .chunkHeaderRead img) ∧
      (∀ (inflate : List Nat → Except ZlibError (List Nat)) (src : List Nat) (self : Image),
        ∃ r, Parse inflate src self = some r ∧ r.err ≠ some .chunkHeaderRead) := by
  refine ⟨?_, ?_, ?_, ?_⟩
  · intro f
    simp only [Read]
    by_cases h : f.length < 8
    · left; omega
    · right
      have : ¬ f.length = 0 := by omega
      simp [this]
  · intro inflate s h
    unfold iteration
    simp only [h, if_true]
    rfl
  · intro inflate s img h
    rcases hi : iteration inflate s with ⟨fl, out⟩
    rw [hi] at h
    simp only at h
    subst h
    rcases iteration_ret inflate s _ img out hi with h | h | h | h | ⟨z, h⟩ <;> cases h
  · intro inflate src self
    obtain ⟨r, hr⟩ := Parse_some inflate src self
    refine ⟨r, hr, ?_⟩
    unfold Parse at hr
    simp only at hr
    split_ifs at hr with h1 h2 h3
    · simp only [Option.some.injEq] at hr; subst hr; simp
    · simp only [Option.some.injEq] at hr; subst hr; simp
    · simp only [Option.some.injEq] at hr; subst hr; simp
    · simp only [Option.map_eq_some'] at hr
      obtain ⟨r1, hr1, rfl⟩ := hr
      simp only [Result.after_err]
      rcases chunkLoop_err inflate _ _ r1 hr1 with h | h | h | h | h | h | h | h | ⟨z, h⟩ <;>
        rw [h] <;> simp

theorem ihdrCalls_append (a b : List Event) :
    ihdrCalls (a ++ b) = ihdrCalls a ++ ihdrCalls b := by
  induction a with
  | nil => rfl
  | cons e a ih => cases e <;> simp [ihdrCalls, ih]

theorem storedHeader_append (h0 : Ihdr) (a b : List Event) :
    storedHeader h0 (a ++ b) = storedHeader (storedHeader h0 a) b := by
  unfold storedHeader
  rw [ihdrCalls_append, List.filter_append, List.getLast?_append]
  generalize ((ihdrCalls b).filter (fun d => decide (d.length = 13))).getLast? = x
  generalize ((ihdrCalls a).filter (fun d => decide (d.length = 13))).getLast? = y
  cases x <;> cases y <;> rfl

theorem storedHeader_none (h0 : Ihdr) (out : List Event) (h : ihdrCalls out = []) :
    storedHeader h0 out = h0 := by
  simp [storedHeader, h]

/-- What the switch does to the header of the receiver. -/
theorem dispatch_header (inflate : List Nat → Except ZlibError (List Nat)) (s : LoopState)
    (t d : List Nat) (l : Nat) :
    (accepted IHDR (dispatch inflate s t d l).2 = !(ihdrCalls (dispatch inflate s t d l).2).isEmpty) ∧
    match (dispatch inflate s t d l).1 with
    | .next s1 =>
      s1.self.ihdr = storedHeader s.self.ihdr (dispatch inflate s t d l).2 ∧
        ∀ p ∈ ihdrCalls (dispatch inflate s t d l).2, p.length = 13
    | .brk _ => False
    | .ret _ img => img.ihdr = storedHeader s.self.ihdr (dispatch inflate s t d l).2 := by
  unfold dispatch
  simp only
  split_ifs with h1 h2 h3 h4
  · rcases hp : (parseIHDR s.self d).2 with _ | e
    · obtain ⟨a, _, b⟩ := parseIHDR_ihdr s.self d hp
      simp [ihdrCalls, storedHeader, accepted, h1, a, b]
    · have hl : d.length ≠ 13 := by
        unfold parseIHDR at hp
        split_ifs at hp with h5
        exact h5
      have hs : (parseIHDR s.self d).1 = s.self := by
        unfold parseIHDR
        simp [hl]
      simp [ihdrCalls, storedHeader, accepted, h1, hl, hs]
  · have t1 : ¬ IDAT = IHDR := by decide
    simp [ihdrCalls, storedHeader, accepted, h2, t1]
  · have t1 : ¬ IDAT = IHDR := by decide
    have hk : (parseIDAT inflate s.self d).1.ihdr = s.self.ihdr := by
      unfold parseIDAT
      rcases inflate d with z | o
      · rfl
      · simp only
        split_ifs <;> rfl
    rcases hp : (parseIDAT inflate s.self d).2 with _ | e
    · simp [ihdrCalls, storedHeader, accepted, h2, t1, hk]
    · simp [ihdrCalls, storedHeader, accepted, h2, t1, hk]
  · have t1 : ¬ IEND = IHDR := by decide
    simp [ihdrCalls, storedHeader, accepted, h4, t1]
  · simp [ihdrCalls, storedHeader, accepted, h1]

theorem iteration_header (inflate : List Nat → Except ZlibError (List Nat)) (s : LoopState) :
    (accepted IHDR (iteration inflate s).2 = !(ihdrCalls (iteration inflate s).2).isEmpty) ∧
    match (iteration inflate s).1 with
    | .next s1 =>
      s1.self.ihdr = storedHeader s.self.ihdr (iteration inflate s).2 ∧
        ∀ p ∈ ihdrCalls (iteration inflate s).2, p.length = 13
    | .brk s1 => s1.self = s.self ∧ ihdrCalls (iteration inflate s).2 = []
    | .ret _ img => img.ihdr = storedHeader s.self.ihdr (iteration inflate s).2 := by
  unfold iteration
  simp only
  split_ifs with h1 h2 h3 h4 h5
  · simp [ihdrCalls, accepted]
  · simp [ihdrCalls, accepted, storedHeader]
  · simp [ihdrCalls, accepted, storedHeader]
  · simp [ihdrCalls, accepted, storedHeader]
  · simp [ihdrCalls, accepted, storedHeader]
  · have hd := dispatch_header inflate
      { s with f := (Read (Read (Read s.f 8).f (Uint32 (slice (Read s.f 8).buf 0 4))).f 4).f }
      (slice (Read s.f 8).buf 4 8)
      (Read (Read s.f 8).f (Uint32 (slice (Read s.f 8).buf 0 4))).buf
      (Uint32 (slice (Read s.f 8).buf 0 4))
    simp only [ihdrCalls_append, accepted_append, storedHeader_append]
    revert hd
    rcases (dispatch inflate
      { s with f := (Read (Read (Read s.f 8).f (Uint32 (slice (Read s.f 8).buf 0 4))).f 4).f }
      (slice (Read s.f 8).buf 4 8)
      (Read (Read s.f 8).f (Uint32 (slice (Read s.f 8).buf 0 4))).buf
      (Uint32 (slice (Read s.f 8).buf 0 4))) with ⟨fl, out⟩
    cases fl <;> simp [ihdrCalls, accepted, storedHeader]

/-- The header of the receiver after the loop is the decoded payload of the
last call of `parseIHDR` on 13 bytes, or the one before the loop. -/
theorem chunkLoop_header (inflate : List Nat → Except ZlibError (List Nat)) :
    ∀ (fuel : Nat) (s : LoopState) (r : Result), chunkLoop inflate fuel s = some r →
      r.self.ihdr = storedHeader s.self.ihdr r.out ∧
        (accepted IHDR r.out = !(ihdrCalls r.out).isEmpty) ∧
        (r.err = none → ∀ p ∈ ihdrCalls r.out, p.length = 13) := by
  intro fuel
  induction fuel with
  | zero => intro s r h; simp [chunkLoop] at h
  | succ n ih =>
    intro s r h
    simp only [chunkLoop] at h
    have hs := iteration_header inflate s
    rcases hi : iteration inflate s with ⟨fl, out⟩
    rw [hi] at h hs
    obtain ⟨hacc, hs⟩ := hs
    simp only at hacc
    cases fl with
    | next s1 =>
      simp only [Option.map_eq_some'] at h
      obtain ⟨r1, hr1, rfl⟩ := h
      obtain ⟨h1, h2, h3⟩ := ih s1 r1 hr1
      simp only at hs
      simp only [Result.after_self, Result.after_out, Result.after_err, storedHeader_append,
        accepted_append, ihdrCalls_append, List.mem_append]
      refine ⟨by rw [h1, hs.1], ?_, ?_⟩
      · rw [hacc, h2]
        cases ihdrCalls out <;> cases ihdrCalls r1.out <;> rfl
      · intro hok p hp
        rcases hp with hp | hp
        · exact hs.2 p hp
        · exact h3 hok p hp
    | brk s1 =>
      simp only [Option.some.injEq] at h
      simp only at hs
      subst h
      simp [mandatory_self, mandatory_out, hs.1, hs.2, storedHeader_none, accepted_append, hacc]
    | ret e img =>
      simp only [Option.some.injEq] at h
      simp only at hs
      subst h
      exact ⟨hs, hacc, fun hok => by simp at hok⟩

theorem storedHeader_last (h0 : Ihdr) (out : List Event) (p : List Nat)
    (hall : ∀ q ∈ ihdrCalls out, q.length = 13) (hp : (ihdrCalls out).getLast? = some p) :
    storedHeader h0 out = decodeIhdr p := by
  unfold storedHeader
  have hf : (ihdrCalls out).filter (fun d => decide (d.length = 13)) = ihdrCalls out := by
    rw [List.filter_eq_self]
    intro q hq
    simpa using hall q hq
  rw [hf, hp]

theorem Image.ext_fields (a b : Image) (h1 : a.ihdr = b.ihdr) (h2 : a.idat = b.idat) : a = b := by
  rcases a with ⟨_, _⟩
  rcases b with ⟨_, _⟩
  simp only at h1 h2
  rw [h1, h2]

/-- The receiver `Parse` leaves, whatever it returns. -/
theorem Parse_self (inflate : List Nat → Except ZlibError (List Nat)) (src : List Nat)
    (self : Image) (r : Result) (hr : Parse inflate src self = some r) :
    r.self = ⟨storedHeader self.ihdr r.out,
        self.idat ++ (inflateCalls r.out).flatMap (inflated inflate)⟩ ∧
      (accepted IHDR r.out = !(ihdrCalls r.out).isEmpty) ∧
      (r.err = none → accepted IHDR r.out = true ∧ ∀ q ∈ ihdrCalls r.out, q.length = 13) ∧
      (r.err = some .sigUnreadable ∨ r.err = some .sigRead ∨ r.err = some .notPng →
        ihdrCalls r.out = [] ∧ inflateCalls r.out = []) := by
  unfold Parse at hr
  simp only at hr
  split_ifs at hr with h1 h2 h3
  · simp only [Option.some.injEq] at hr; subst hr
    simp [inflateCalls, ihdrCalls, storedHeader, accepted]
  · simp only [Option.some.injEq] at hr; subst hr
    simp [inflateCalls, ihdrCalls, storedHeader, accepted]
  · simp only [Option.some.injEq] at hr; subst hr
    simp [inflateCalls, ihdrCalls, storedHeader, accepted]
  · simp only [Option.map_eq_some'] at hr
    obtain ⟨r1, hr1, rfl⟩ := hr
    obtain ⟨a, _⟩ := chunkLoop_self inflate _ _ r1 hr1
    obtain ⟨b, c, d⟩ := chunkLoop_header inflate _ _ r1 hr1
    simp only at a b
    have e1 : ihdrCalls ([Event.read 8 (Read src 8).n] ++ r1.out) = ihdrCalls r1.out := rfl
    have e2 : inflateCalls ([Event.read 8 (Read src 8).n] ++ r1.out) = inflateCalls r1.out := rfl
    have e3 : storedHeader self.ihdr ([Event.read 8 (Read src 8).n] ++ r1.out) =
        storedHeader self.ihdr r1.out := rfl
    have e4 : accepted IHDR ([Event.read 8 (Read src 8).n] ++ r1.out) = accepted IHDR r1.out := by
      simp [accepted]
    simp only [Result.after_self, Result.after_out, Result.after_err, e1, e2, e3, e4]
    refine ⟨Image.ext_fields _ _ b a, c, ?_, ?_⟩
    · intro hok
      refine ⟨?_, d hok⟩
      have hf := chunkLoop_flags inflate _ _ r1 hr1 (Or.inl hok)
      rw [hok] at hf
      unfold firstMissing at hf
      simp only [Bool.false_or] at hf
      split_ifs at hf with g1
      simpa using g1
    · intro herr
      exfalso
      rcases chunkLoop_err inflate _ _ r1 hr1 with h | h | h | h | h | h | h | h | ⟨z, h⟩ <;>
        rw [h] at herr <;> simp at herr

/-- C12, as amended. `Parse` writes into its receiver as it goes and does not
undo it when it fails.  Whatever it returns, the receiver holds as header the
decoded payload of the last 13-byte payload `parseIHDR` was run on before the
return, or the header before the call when there was none, and as image data
the data before the call followed by what the zlib reader gave for the
payloads it was run on.  So the receiver is left exactly as it was if and only
if that header is the one before the call and the zlib reader gave no byte;
this is the case when no IHDR chunk was accepted and the zlib reader was not
run, and on every signature error. -/
theorem Parse_receiver (inflate : List Nat → Except ZlibError (List Nat)) (src : List Nat)
    (self : Image) :
    ∃ r, Parse inflate src self = some r ∧
      r.self = ⟨storedHeader self.ihdr r.out,
        self.idat ++ (inflateCalls r.out).flatMap (inflated inflate)⟩ ∧
      (r.self = self ↔ storedHeader self.ihdr r.out = self.ihdr ∧
        (inflateCalls r.out).flatMap (inflated inflate) = []) ∧
      (accepted IHDR r.out = false → r.self.ihdr = self.ihdr) ∧
      (accepted IHDR r.out = false → inflateCalls r.out = [] → r.self = self) ∧
      (r.err = some .sigUnreadable ∨ r.err = some .sigRead ∨ r.err = some .notPng →
        r.self = self) := by
  obtain ⟨r, hr⟩ := Parse_some inflate src self
  obtain ⟨hs, hacc, _, hsig⟩ := Parse_self inflate src self r hr
  have hnone : accepted IHDR r.out = false → storedHeader self.ihdr r.out = self.ihdr := by
    intro h
    rw [hacc] at h
    have : ihdrCalls r.out = [] := by
      cases hc : ihdrCalls r.out with
      | nil => rfl
      | cons x xs => rw [hc] at h; simp at h
    exact storedHeader_none _ _ this
  refine ⟨r, hr, hs, ?_, ?_, ?_, ?_⟩
  · constructor
    · intro h
      have h1 := congrArg Image.ihdr (hs.symm.trans h)
      have h2 := congrArg Image.idat (hs.symm.trans h)
      simp only at h1 h2
      exact ⟨h1, by simpa using h2⟩
    · intro ⟨h1, h2⟩
      rw [hs, h1, h2, List.append_nil]
  · intro h
    rw [hs]
    exact hnone h
  · intro h1 h2
    rw [hs, hnone h1, h2]
    simp
  · intro herr
    obtain ⟨a, b⟩ := hsig herr
    rw [hs, storedHeader_none _ _ a, b]
    simp

set_option maxRecDepth 100000 in
/-- C18. For every input and receiver: when `Parse` succeeds, `parseIHDR` was
run at least once, every payload it was run on has 13 bytes, and the header of
the result is the decoded payload of the last of these runs, however many there
were; the image data is the data before the call followed by what the zlib
reader gave for every payload it was run on, those before a later IHDR chunk
included.  In terms of the file: when the signature is followed by fully
framed chunks and fewer than eight further bytes, the header of a successful
parse is the decoded payload of the last IHDR chunk with a matching CRC and the
image data holds the inflated payloads of all IDAT chunks with a matching CRC.
A file with an IHDR chunk for 1 by 1, an IDAT chunk, an IHDR chunk for 2 by 2, a
second IDAT chunk and an IEND chunk gives the header 2 by 2 and the bytes of
both IDAT chunks; `minimalFile` followed by an IHDR chunk for 95 by 2 cut
before the last byte of its CRC `1b 37 5f 00` gives the header 95 by 2. -/
theorem Parse_repeated_ihdr :
    (∀ (inflate : List Nat → Except ZlibError (List Nat)) (src : List Nat) (self : Image),
      ∃ r, Parse inflate src self = some r ∧
        (r.err = none →
          ∃ p, (ihdrCalls r.out).getLast? = some p ∧ (∀ q ∈ ihdrCalls r.out, q.length = 13) ∧
            r.self = ⟨decodeIhdr p,
              self.idat ++ (inflateCalls r.out).flatMap (inflated inflate)⟩)) ∧
      (∀ (inflate : List Nat → Except ZlibError (List Nat)) (cs : List RawChunk)
          (tail : List Nat) (self : Image),
        (∀ c ∈ cs, c.Framed) → tail.length < 8 →
          (Parse inflate (validSignature ++ chunksBytes cs ++ tail) self).map Result.err =
            some none →
          ∃ p, (acceptedIhdr cs).getLast? = some p ∧ p.length = 13 ∧
            (Parse inflate (validSignature ++ chunksBytes cs ++ tail) self).map Result.self =
              some ⟨decodeIhdr p, self.idat ++ (acceptedIdat cs).flatMap (inflated inflate)⟩) ∧
      (Parse inflateStored
          (validSignature ++ chunksBytes [mkChunk IHDR ihdr118.encode, mkChunk IDAT zlib00,
            mkChunk IHDR (Ihdr.encode ⟨2, 2, 8, 0, 0, 0, 0⟩), mkChunk IDAT zlib00,
            mkChunk IEND []]) Image.zero).map Result.outcome =
        some (none, ⟨⟨2, 2, 8, 0, 0, 0, 0⟩, [0, 0, 0, 0]⟩) ∧
      (mkChunk IHDR (Ihdr.encode ⟨95, 2, 8, 0, 0, 0, 0⟩)).bytes =
        [0, 0, 0, 13, 0x49, 0x48, 0x44, 0x52, 0, 0, 0, 95, 0, 0, 0, 2, 8, 0, 0, 0, 0,
          0x1b, 0x37, 0x5f, 0] ∧
      (Parse inflateStored
          (minimalFile ++ [0, 0, 0, 13, 0x49, 0x48, 0x44, 0x52, 0, 0, 0, 95, 0, 0, 0, 2, 8, 0, 0,
            0, 0, 0x1b, 0x37, 0x5f]) Image.zero).map Result.outcome =
        some (none, ⟨⟨95, 2, 8, 0, 0, 0, 0⟩, [0, 0]⟩) := by
  refine ⟨?_, ?_, by decide, by decide, by decide⟩
  · intro inflate src self
    obtain ⟨r, hr⟩ := Parse_some inflate src self
    obtain ⟨hs, hacc, hok, _⟩ := Parse_self inflate src self r hr
    refine ⟨r, hr, fun h => ?_⟩
    obtain ⟨ha, hall⟩ := hok h
    rw [hacc] at ha
    rcases hc : (ihdrCalls r.out).getLast? with _ | p
    · exfalso
      rw [List.getLast?_eq_none_iff] at hc
      rw [hc] at ha
      simp at ha
    · refine ⟨p, rfl, hall, ?_⟩
      rw [hs, storedHeader_last _ _ p hall hc]
  · intro inflate cs tail self hcs htail hok
    exact Parse_last_ihdr_framed inflate cs tail self hcs htail hok

end Apng
